import Mathlib

/-!
# Verification of the Quark runtime's value & vector engine

Shallow embedding of the Quark runtime core
(`src/core/quark/runtime/include/quark/...`): the tagged `QValue` union, the
typed columnar `QVector` engine (`types/vector.hpp`), and the scalar operator
dispatch (`ops/arithmetic.hpp`, `ops/comparison.hpp`).

Modelling conventions:
* C++ `double` is modelled as `Rat` with exact arithmetic (the claims under
  study concern result tags, null masks and structurally exact values, not
  rounding).
* C++ `int64_t` is modelled as `Int`; signed overflow is undefined behaviour
  in the source, so the model is wrap-free.
* C++ strings / byte buffers are modelled as `List Char`.
* `uint8_t` cells (bool storage and null-mask entries) are modelled as `Nat`,
  read back through `!= 0` exactly as the source does.
* Heap handles: a `QValue` holding a vector is modelled as carrying the
  vector's contents; mutating operations return the updated vector.
-/

set_option maxHeartbeats 1000000

namespace Quark

/-- Strings are modelled as lists of characters (UTF-8 byte sequences). -/
abbrev QStr := List Char

/-- `QVector::Type` from `types/vector.hpp`. -/
inductive QVecType
  | F64 | I64 | BOOL | STR
deriving DecidableEq, Repr

/-- The `std::variant` storage of `QVector`: `Vec<double>`, `Vec<int64_t>`,
`Vec<uint8_t>` or `QStringStorage {offsets, bytes}`. -/
inductive QStorage
  | f64 (xs : List Rat)
  | i64 (xs : List Int)
  | boolv (xs : List Nat)
  | str (offsets : List Nat) (bytes : QStr)
deriving DecidableEq, Repr

/-- `QVector` from `types/vector.hpp`: dtype tag, logical length, null flag,
null mask (`QNullMask.is_null`, one `uint8_t` per element when present) and
the storage variant. -/
structure QVector where
  type : QVecType
  count : Nat
  has_nulls : Bool
  nulls : List Nat
  storage : QStorage
deriving DecidableEq, Repr

/-- The tagged `QValue` union (`core/value.hpp`).  Dict/Func/Result payloads
are irrelevant to the claims and are modelled as bare tags. -/
inductive QValue
  | VInt (i : Int)
  | VFloat (x : Rat)
  | VBool (b : Bool)
  | VString (s : QStr)
  | VNull
  | VList (xs : List QValue)
  | VVector (v : QVector)
  | VDict
  | VFunc
  | VResult
deriving Repr

/-- `q_vec_has_valid_handle`: the value is a vector with a non-null pointer
(modelled: the vector payload is always present). -/
def q_vec_has_valid_handle : QValue → Bool
  | .VVector _ => true
  | _ => false

/-- Dereference `vec.data.vector_val`. -/
def getVec : QValue → Option QVector
  | .VVector v => some v
  | _ => none

/-- `q_vec_storage_matches_type`. -/
def q_vec_storage_matches_type (v : QVector) : Bool :=
  match v.type, v.storage with
  | .F64, .f64 _ => true
  | .I64, .i64 _ => true
  | .BOOL, .boolv _ => true
  | .STR, .str _ _ => true
  | _, _ => false

/-- The offsets-monotonicity loop of `q_vec_validate`
(`offsets[i] >= offsets[i-1]` for all adjacent pairs). -/
def nondecreasing : List Nat → Bool
  | [] => true
  | [_] => true
  | a :: b :: t => decide (a ≤ b) && nondecreasing (b :: t)

/-- `q_vec_validate`: storage matches dtype; numeric/bool buffer length equals
`count`; for STR, `offsets.size == count+1`, `offsets.front == 0`,
`offsets.back == bytes.size`, offsets non-decreasing; the null mask is empty
when `has_nulls` is false and has length `count` when it is true. -/
def q_vec_validate (v : QVector) : Bool :=
  q_vec_storage_matches_type v &&
  (match v.storage with
   | .f64 xs => decide (xs.length = v.count)
   | .i64 xs => decide (xs.length = v.count)
   | .boolv xs => decide (xs.length = v.count)
   | .str offsets bytes =>
     decide (offsets.length = v.count + 1) && !offsets.isEmpty &&
     decide (offsets.headD 1 = 0) && decide (offsets.getLastD 0 = bytes.length) &&
     nondecreasing offsets) &&
  (if v.has_nulls then decide (v.nulls.length = v.count) else v.nulls.isEmpty)

/-- `q_vec_is_type`: valid handle, matching dtype, and `q_vec_validate`. -/
def q_vec_is_type (vec : QValue) (t : QVecType) : Bool :=
  match vec with
  | .VVector v => decide (v.type = t) && q_vec_validate v
  | _ => false

def QStorage.f64list : QStorage → Option (List Rat)
  | .f64 xs => some xs
  | _ => none

def QStorage.i64list : QStorage → Option (List Int)
  | .i64 xs => some xs
  | _ => none

def QStorage.boolList : QStorage → Option (List Nat)
  | .boolv xs => some xs
  | _ => none

/-- `q_vec_f64_const`: the F64 buffer, provided the vector is a valid F64
vector. -/
def q_vec_f64_const (vec : QValue) : Option (List Rat) :=
  if q_vec_is_type vec .F64 then (getVec vec).bind (fun v => v.storage.f64list)
  else none

/-- `q_vec_i64_const`. -/
def q_vec_i64_const (vec : QValue) : Option (List Int) :=
  if q_vec_is_type vec .I64 then (getVec vec).bind (fun v => v.storage.i64list)
  else none

/-- `q_vec_bool_const`. -/
def q_vec_bool_const (vec : QValue) : Option (List Nat) :=
  if q_vec_is_type vec .BOOL then (getVec vec).bind (fun v => v.storage.boolList)
  else none

/-- `q_vec_ensure_null_mask`: allocate an all-valid mask of length `count`
when none is present. -/
def q_vec_ensure_null_mask (v : QVector) : QVector :=
  if !v.has_nulls then { v with has_nulls := true, nulls := List.replicate v.count 0 }
  else v

/-- `q_vec_is_null_at`: false when no mask exists or the index is out of
range, else the mask byte is non-zero. -/
def q_vec_is_null_at (v : QVector) (index : Nat) : Bool :=
  if !v.has_nulls || decide (v.count ≤ index) then false
  else v.nulls.getD index 0 != 0

def q_is_numeric_scalar : QValue → Bool
  | .VInt _ => true
  | .VFloat _ => true
  | _ => false

def q_is_integral_scalar : QValue → Bool
  | .VInt _ => true
  | .VBool _ => true
  | _ => false

def q_is_boolish_scalar : QValue → Bool
  | .VBool _ => true
  | .VInt _ => true
  | _ => false

/-- Read of the union's `int_val` field.  For variants that store no integer
the source would read reinterpreted bits (e.g. pointer bits); the model fixes
those reads to `0` and no theorem depends on that choice beyond the shape of
the result. -/
def int_val_bits : QValue → Int
  | .VInt i => i
  | .VBool b => if b then 1 else 0
  | _ => 0

/-- Read of the union's `float_val` field (same convention as
`int_val_bits`). -/
def float_val_bits : QValue → Rat
  | .VFloat x => x
  | _ => 0

/-- Read of the union's `string_val` field. -/
def string_val_bits : QValue → QStr
  | .VString s => s
  | _ => []

/-- `q_to_double_scalar`: `float_val` for floats, else `int_val` cast to
double. -/
def q_to_double_scalar (v : QValue) : Rat :=
  match v with
  | .VFloat x => x
  | _ => (int_val_bits v : Rat)

/-- C-style `double → int64_t` cast: truncation toward zero. -/
def ratTrunc (x : Rat) : Int := if 0 ≤ x then ⌊x⌋ else ⌈x⌉

/-- `q_to_i64_scalar`: bools to 0/1, floats truncated, ints unchanged. -/
def q_to_i64_scalar (v : QValue) : Int :=
  match v with
  | .VBool b => if b then 1 else 0
  | .VFloat x => ratTrunc x
  | _ => int_val_bits v

/-- `qv_vector()`: fresh empty F64 vector (capacity reservation has no
observable effect and is dropped). -/
def qv_vector_new : QVector := ⟨.F64, 0, false, [], .f64 []⟩

/-- `qv_vector_i64()`. -/
def qv_vector_i64_new : QVector := ⟨.I64, 0, false, [], .i64 []⟩

/-- `qv_vector_bool()`. -/
def qv_vector_bool_new : QVector := ⟨.BOOL, 0, false, [], .boolv []⟩

/-- `qv_vector_str()`: string storage starts with a single `0` offset. -/
def qv_vector_str_new : QVector := ⟨.STR, 0, false, [], .str [0] []⟩

/-- `q_vec_push` (F64 path): type-check the scalar, append, update `count`,
and keep the null mask in lockstep when one is present.  A storage/dtype
mismatch would make the source's `std::get` throw; the model returns the null
sentinel there (unreachable for valid vectors). -/
def q_vec_push (vec value : QValue) : QValue :=
  match vec with
  | .VVector v =>
    if !decide (v.type = .F64) then .VNull
    else if !q_is_numeric_scalar value then .VNull
    else match v.storage with
      | .f64 xs =>
        let xs2 := xs ++ [q_to_double_scalar value]
        .VVector { v with
          storage := .f64 xs2
          count := xs2.length
          nulls := if v.has_nulls then v.nulls ++ [0] else v.nulls }
      | _ => .VNull
  | _ => .VNull

/-- `q_vec_push_i64`. -/
def q_vec_push_i64 (vec value : QValue) : QValue :=
  match vec with
  | .VVector v =>
    if !decide (v.type = .I64) then .VNull
    else if !(q_is_numeric_scalar value || q_is_boolish_scalar value) then .VNull
    else match v.storage with
      | .i64 xs =>
        let xs2 := xs ++ [q_to_i64_scalar value]
        .VVector { v with
          storage := .i64 xs2
          count := xs2.length
          nulls := if v.has_nulls then v.nulls ++ [0] else v.nulls }
      | _ => .VNull
  | _ => .VNull

/-- The `(value.type == VAL_BOOL) ? value.bool_val : (value.int_val != 0)`
read used by the bool push/fill paths. -/
def scalarBoolRead (value : QValue) : Bool :=
  match value with
  | .VBool b => b
  | _ => int_val_bits value != 0

/-- `q_vec_push_bool`. -/
def q_vec_push_bool (vec value : QValue) : QValue :=
  match vec with
  | .VVector v =>
    if !decide (v.type = .BOOL) then .VNull
    else if !q_is_boolish_scalar value then .VNull
    else match v.storage with
      | .boolv xs =>
        let xs2 := xs ++ [if scalarBoolRead value then 1 else 0]
        .VVector { v with
          storage := .boolv xs2
          count := xs2.length
          nulls := if v.has_nulls then v.nulls ++ [0] else v.nulls }
      | _ => .VNull
  | _ => .VNull

/-- `q_vec_set_null_at`: returns the updated vector on success (the source
mutates in place and returns `true`), `none` when the handle is invalid or
the index is out of range. -/
def q_vec_set_null_at (vec : QValue) (index : Nat) (is_null : Bool) :
    Option QVector :=
  match vec with
  | .VVector v =>
    if decide (v.count ≤ index) then none
    else
      let v2 := q_vec_ensure_null_mask v
      some { v2 with nulls := v2.nulls.set index (if is_null then 1 else 0) }
  | _ => none

/-- The running-total loop of `q_vec_encode_strings`, emitting one cumulative
offset per string. -/
def encodeOffsetsFrom (total : Nat) : List QStr → List Nat
  | [] => []
  | s :: rest => (total + s.length) :: encodeOffsetsFrom (total + s.length) rest

/-- `q_vec_encode_strings`: offsets are cumulative byte lengths starting at
`0`; bytes are the concatenation of all strings. -/
def q_vec_encode_strings (values : List QStr) : List Nat × QStr :=
  (0 :: encodeOffsetsFrom 0 values, values.flatten)

/-- The `bytes[offsets[i] .. offsets[i+1])` slice taken by
`q_vec_decode_strings` and the STR element readers. -/
def byteSlice (bytes : QStr) (start stop : Nat) : QStr :=
  (bytes.drop start).take (stop - start)

/-- `q_vec_decode_strings`. -/
def q_vec_decode_strings (offsets : List Nat) (bytes : QStr) (count : Nat) :
    List QStr :=
  (List.range count).map
    (fun i => byteSlice bytes (offsets.getD i 0) (offsets.getD (i + 1) 0))

/-- `q_vec_clone`: validated deep copy. -/
def q_vec_clone (vec : QValue) : QValue :=
  match vec with
  | .VVector v => if q_vec_validate v then .VVector v else .VNull
  | _ => .VNull

/-- The fresh output of the F64 binary kernel: `qv_vector` resized to the
input length, `count` set, no null mask. -/
def mkF64Out (xs : List Rat) : QVector := ⟨.F64, xs.length, false, [], .f64 xs⟩

/-- The fresh output of the I64 binary kernel. -/
def mkI64Out (xs : List Int) : QVector := ⟨.I64, xs.length, false, [], .i64 xs⟩

/-- `q_vec_binary_impl`: F64 elementwise kernel over vec-vec, vec-scalar and
scalar-vec operand shapes.  The output never carries a null mask. -/
def q_vec_binary_impl (a b : QValue) (op : Rat → Rat → Rat) : QValue :=
  let aVec := q_vec_has_valid_handle a
  let bVec := q_vec_has_valid_handle b
  if !aVec && !bVec then .VNull
  else if aVec && bVec then
    match q_vec_f64_const a, q_vec_f64_const b with
    | some av, some bv =>
      if av.length ≠ bv.length then .VNull
      else .VVector (mkF64Out (List.zipWith op av bv))
    | _, _ => .VNull
  else if aVec && q_is_numeric_scalar b then
    match q_vec_f64_const a with
    | some av => .VVector (mkF64Out (av.map (fun x => op x (q_to_double_scalar b))))
    | none => .VNull
  else if bVec && q_is_numeric_scalar a then
    match q_vec_f64_const b with
    | some bv => .VVector (mkF64Out (bv.map (fun y => op (q_to_double_scalar a) y)))
    | none => .VNull
  else .VNull

/-- `q_vec_binary_i64_impl`: I64 elementwise kernel; scalars must be
`q_is_integral_scalar` (Int or Bool).  No null mask on the output. -/
def q_vec_binary_i64_impl (a b : QValue) (op : Int → Int → Int) : QValue :=
  let aVec := q_vec_has_valid_handle a
  let bVec := q_vec_has_valid_handle b
  if aVec && bVec then
    match q_vec_i64_const a, q_vec_i64_const b with
    | some av, some bv =>
      if av.length ≠ bv.length then .VNull
      else .VVector (mkI64Out (List.zipWith op av bv))
    | _, _ => .VNull
  else if aVec && q_is_integral_scalar b then
    match q_vec_i64_const a with
    | some av => .VVector (mkI64Out (av.map (fun x => op x (q_to_i64_scalar b))))
    | none => .VNull
  else if bVec && q_is_integral_scalar a then
    match q_vec_i64_const b with
    | some bv => .VVector (mkI64Out (bv.map (fun y => op (q_to_i64_scalar a) y)))
    | none => .VNull
  else .VNull

/-- `q_vec_div_i64`: integer division kernel that always produces an F64
vector (`double` casts on both operands).  No null mask on the output. -/
def q_vec_div_i64 (a b : QValue) : QValue :=
  let aVec := q_vec_has_valid_handle a
  let bVec := q_vec_has_valid_handle b
  if aVec && bVec then
    match q_vec_i64_const a, q_vec_i64_const b with
    | some av, some bv =>
      if av.length ≠ bv.length then .VNull
      else .VVector (mkF64Out (List.zipWith (fun (x y : Int) => (x : Rat) / (y : Rat)) av bv))
    | _, _ => .VNull
  else if aVec && q_is_integral_scalar b then
    match q_vec_i64_const a with
    | some av =>
      .VVector (mkF64Out (av.map (fun (x : Int) => (x : Rat) / (q_to_i64_scalar b : Rat))))
    | none => .VNull
  else if bVec && q_is_integral_scalar a then
    match q_vec_i64_const b with
    | some bv =>
      .VVector (mkF64Out (bv.map (fun (y : Int) => (q_to_i64_scalar a : Rat) / (y : Rat))))
    | none => .VNull
  else .VNull

/-- `q_vec_add`: try the I64 kernel when either operand is a valid I64
vector; fall back to the F64 kernel when that returns the null sentinel. -/
def q_vec_add (a b : QValue) : QValue :=
  if q_vec_is_type a .I64 || q_vec_is_type b .I64 then
    match q_vec_binary_i64_impl a b (· + ·) with
    | .VNull => q_vec_binary_impl a b (· + ·)
    | out => out
  else q_vec_binary_impl a b (· + ·)

/-- `q_vec_sub`. -/
def q_vec_sub (a b : QValue) : QValue :=
  if q_vec_is_type a .I64 || q_vec_is_type b .I64 then
    match q_vec_binary_i64_impl a b (· - ·) with
    | .VNull => q_vec_binary_impl a b (· - ·)
    | out => out
  else q_vec_binary_impl a b (· - ·)

/-- `q_vec_mul`. -/
def q_vec_mul (a b : QValue) : QValue :=
  if q_vec_is_type a .I64 || q_vec_is_type b .I64 then
    match q_vec_binary_i64_impl a b (· * ·) with
    | .VNull => q_vec_binary_impl a b (· * ·)
    | out => out
  else q_vec_binary_impl a b (· * ·)

/-- `q_vec_div`: I64 operands route through `q_vec_div_i64` (promoting to
F64); otherwise the F64 kernel. -/
def q_vec_div (a b : QValue) : QValue :=
  if q_vec_is_type a .I64 || q_vec_is_type b .I64 then
    match q_vec_div_i64 a b with
    | .VNull => q_vec_binary_impl a b (· / ·)
    | out => out
  else q_vec_binary_impl a b (· / ·)

/-- `q_vec_sum`: I64 and BOOL vectors accumulate in double; F64 sums
directly; anything else is the null sentinel. -/
def q_vec_sum (vec : QValue) : QValue :=
  match q_vec_i64_const vec with
  | some vi => .VFloat (vi.foldl (fun (acc : Rat) (x : Int) => acc + (x : Rat)) 0)
  | none =>
    match q_vec_bool_const vec with
    | some vb =>
      .VFloat (vb.foldl (fun (acc : Rat) (x : Nat) => acc + if x != 0 then 1 else 0) 0)
    | none =>
      match q_vec_f64_const vec with
      | some v => .VFloat (v.foldl (· + ·) 0)
      | none => .VNull

/-- `q_vec_min`: a non-empty I64 vector folds `std::min` and boxes the result
as a float; otherwise the F64 path; empty or non-numeric input is the null
sentinel. -/
def q_vec_min (vec : QValue) : QValue :=
  match q_vec_i64_const vec with
  | some (x :: t) => .VFloat ((t.foldl min x : Int) : Rat)
  | _ =>
    match q_vec_f64_const vec with
    | some (x :: t) => .VFloat (t.foldl min x)
    | _ => .VNull

/-- `q_vec_max`. -/
def q_vec_max (vec : QValue) : QValue :=
  match q_vec_i64_const vec with
  | some (x :: t) => .VFloat ((t.foldl max x : Int) : Rat)
  | _ =>
    match q_vec_f64_const vec with
    | some (x :: t) => .VFloat (t.foldl max x)
    | _ => .VNull

/-- The per-dtype scalar type-check of `q_fillna`. -/
def fillTypeChecks (t : QVecType) (value : QValue) : Bool :=
  match t with
  | .F64 => q_is_numeric_scalar value
  | .I64 => q_is_numeric_scalar value || q_is_boolish_scalar value
  | .BOOL => q_is_boolish_scalar value
  | .STR => match value with | .VString _ => true | _ => false

/-- `q_fillna`: validated input; a vector with no mask (or an empty mask) is
returned unchanged; otherwise the scalar is type-checked against the dtype,
every masked element's stored value is overwritten, and the mask is dropped
(`has_nulls := false`, mask cleared).  The STR path decodes, replaces and
re-encodes the string table. -/
def q_fillna (vec value : QValue) : QValue :=
  match vec with
  | .VVector v =>
    if !q_vec_validate v then .VNull
    else if !v.has_nulls || v.nulls.isEmpty then .VVector v
    else
      match v.type with
      | .F64 =>
        if !q_is_numeric_scalar value then .VNull
        else match v.storage with
          | .f64 xs =>
            let fill := q_to_double_scalar value
            .VVector { v with
              storage := .f64 ((List.range v.count).map
                (fun i => if v.nulls.getD i 0 != 0 then fill else xs.getD i 0))
              has_nulls := false
              nulls := [] }
          | _ => .VNull
      | .I64 =>
        if !(q_is_numeric_scalar value || q_is_boolish_scalar value) then .VNull
        else match v.storage with
          | .i64 xs =>
            let fill := q_to_i64_scalar value
            .VVector { v with
              storage := .i64 ((List.range v.count).map
                (fun i => if v.nulls.getD i 0 != 0 then fill else xs.getD i 0))
              has_nulls := false
              nulls := [] }
          | _ => .VNull
      | .BOOL =>
        if !q_is_boolish_scalar value then .VNull
        else match v.storage with
          | .boolv xs =>
            let fill : Nat := if scalarBoolRead value then 1 else 0
            .VVector { v with
              storage := .boolv ((List.range v.count).map
                (fun i => if v.nulls.getD i 0 != 0 then fill else xs.getD i 0))
              has_nulls := false
              nulls := [] }
          | _ => .VNull
      | .STR =>
        match value with
        | .VString fill =>
          match v.storage with
          | .str offsets bytes =>
            let decoded := q_vec_decode_strings offsets bytes v.count
            let replaced := (List.range v.count).map
              (fun i => if v.nulls.getD i 0 != 0 then fill else decoded.getD i [])
            let enc := q_vec_encode_strings replaced
            .VVector { v with
              storage := .str enc.1 enc.2
              has_nulls := false
              nulls := [] }
          | _ => .VNull
        | _ => .VNull
  | _ => .VNull

/-- `q_astype`: cast between F64/I64/BOOL preserving `count` and copying the
null mask verbatim; a same-dtype cast clones; STR source or target fails with
the null sentinel. -/
def q_astype (vec dtype : QValue) : QValue :=
  match vec with
  | .VVector v =>
    if !q_vec_validate v then .VNull
    else
      match dtype with
      | .VString s =>
        if s = "f64".data then
          if v.type = .F64 then q_vec_clone vec
          else match v.storage with
            | .i64 xs =>
              .VVector { v with
                type := .F64
                storage := .f64 (xs.map (fun (x : Int) => (x : Rat))) }
            | .boolv xs =>
              .VVector { v with
                type := .F64
                storage := .f64 (xs.map (fun (x : Nat) => if x != 0 then (1 : Rat) else 0)) }
            | _ => .VNull
        else if s = "i64".data then
          if v.type = .I64 then q_vec_clone vec
          else match v.storage with
            | .f64 xs =>
              .VVector { v with
                type := .I64
                storage := .i64 (xs.map ratTrunc) }
            | .boolv xs =>
              .VVector { v with
                type := .I64
                storage := .i64 (xs.map (fun (x : Nat) => if x != 0 then (1 : Int) else 0)) }
            | _ => .VNull
        else if s = "bool".data then
          if v.type = .BOOL then q_vec_clone vec
          else match v.storage with
            | .f64 xs =>
              .VVector { v with
                type := .BOOL
                storage := .boolv (xs.map (fun (x : Rat) => if x != 0 then (1 : Nat) else 0)) }
            | .i64 xs =>
              .VVector { v with
                type := .BOOL
                storage := .boolv (xs.map (fun (x : Int) => if x != 0 then (1 : Nat) else 0)) }
            | _ => .VNull
        else .VNull
      | _ => .VNull
  | _ => .VNull

/-- Output builder of the comparison kernels: `q_vec_cmp_alloc_bool`
followed by the fill loop.  `hasNulls` mirrors `aNull || bNull`; when it is
false the source runs a maskless loop, which coincides with this definition
because `nullAt` is then constantly false. -/
def mkCmpOut (n : Nat) (hasNulls : Bool) (nullAt : Nat → Bool)
    (bit : Nat → Bool) : QVector :=
  { type := .BOOL
    count := n
    has_nulls := hasNulls
    nulls := if hasNulls then (List.range n).map (fun i => if nullAt i then 1 else 0)
             else []
    storage := .boolv ((List.range n).map
      (fun i => if nullAt i then 0 else if bit i then 1 else 0)) }

/-- `q_vec_cmp_f64_impl`: F64 comparison kernel producing a BOOL vector,
with vec-vec, vec-scalar and scalar-vec shapes and null propagation. -/
def q_vec_cmp_f64_impl (a b : QValue) (op : Rat → Rat → Bool) : QValue :=
  let aVec := q_vec_has_valid_handle a
  let bVec := q_vec_has_valid_handle b
  if !aVec && !bVec then .VNull
  else if aVec && bVec then
    match getVec a, getVec b, q_vec_f64_const a, q_vec_f64_const b with
    | some va, some vb, some av, some bv =>
      if av.length ≠ bv.length then .VNull
      else .VVector (mkCmpOut av.length (va.has_nulls || vb.has_nulls)
        (fun i => q_vec_is_null_at va i || q_vec_is_null_at vb i)
        (fun i => op (av.getD i 0) (bv.getD i 0)))
    | _, _, _, _ => .VNull
  else if aVec && q_is_numeric_scalar b then
    match getVec a, q_vec_f64_const a with
    | some va, some av =>
      .VVector (mkCmpOut av.length va.has_nulls
        (fun i => q_vec_is_null_at va i)
        (fun i => op (av.getD i 0) (q_to_double_scalar b)))
    | _, _ => .VNull
  else if bVec && q_is_numeric_scalar a then
    match getVec b, q_vec_f64_const b with
    | some vb, some bv =>
      .VVector (mkCmpOut bv.length vb.has_nulls
        (fun i => q_vec_is_null_at vb i)
        (fun i => op (q_to_double_scalar a) (bv.getD i 0)))
    | _, _ => .VNull
  else .VNull

/-- `q_vec_cmp_i64_impl`. -/
def q_vec_cmp_i64_impl (a b : QValue) (op : Int → Int → Bool) : QValue :=
  let aVec := q_vec_has_valid_handle a
  let bVec := q_vec_has_valid_handle b
  if aVec && bVec then
    match getVec a, getVec b, q_vec_i64_const a, q_vec_i64_const b with
    | some va, some vb, some av, some bv =>
      if av.length ≠ bv.length then .VNull
      else .VVector (mkCmpOut av.length (va.has_nulls || vb.has_nulls)
        (fun i => q_vec_is_null_at va i || q_vec_is_null_at vb i)
        (fun i => op (av.getD i 0) (bv.getD i 0)))
    | _, _, _, _ => .VNull
  else if aVec && q_is_integral_scalar b then
    match getVec a, q_vec_i64_const a with
    | some va, some av =>
      .VVector (mkCmpOut av.length va.has_nulls
        (fun i => q_vec_is_null_at va i)
        (fun i => op (av.getD i 0) (q_to_i64_scalar b)))
    | _, _ => .VNull
  else if bVec && q_is_integral_scalar a then
    match getVec b, q_vec_i64_const b with
    | some vb, some bv =>
      .VVector (mkCmpOut bv.length vb.has_nulls
        (fun i => q_vec_is_null_at vb i)
        (fun i => op (q_to_i64_scalar a) (bv.getD i 0)))
    | _, _ => .VNull
  else .VNull

/-- `q_vec_cmp_bool_impl` (eq/neq only): both sides validated BOOL vectors,
or a BOOL vector against a Bool/Int scalar. -/
def q_vec_cmp_bool_impl (a b : QValue) (op : Bool → Bool → Bool) : QValue :=
  let aVec := q_vec_is_type a .BOOL
  let bVec := q_vec_is_type b .BOOL
  if aVec && bVec then
    match getVec a, getVec b, q_vec_bool_const a, q_vec_bool_const b with
    | some va, some vb, some av, some bv =>
      if av.length ≠ bv.length then .VNull
      else .VVector (mkCmpOut av.length (va.has_nulls || vb.has_nulls)
        (fun i => q_vec_is_null_at va i || q_vec_is_null_at vb i)
        (fun i => op (av.getD i 0 != 0) (bv.getD i 0 != 0)))
    | _, _, _, _ => .VNull
  else if aVec && q_is_boolish_scalar b then
    match getVec a, q_vec_bool_const a with
    | some va, some av =>
      .VVector (mkCmpOut av.length va.has_nulls
        (fun i => q_vec_is_null_at va i)
        (fun i => op (av.getD i 0 != 0) (scalarBoolRead b)))
    | _, _ => .VNull
  else if bVec && q_is_boolish_scalar a then
    match getVec b, q_vec_bool_const b with
    | some vb, some bv =>
      .VVector (mkCmpOut bv.length vb.has_nulls
        (fun i => q_vec_is_null_at vb i)
        (fun i => op (scalarBoolRead a) (bv.getD i 0 != 0)))
    | _, _ => .VNull
  else .VNull

/-- The strings of a validated STR vector (`q_vec_decode_strings` over its
own storage).  Non-STR storage is unreachable behind `q_vec_is_type`. -/
def strVecStrings (v : QVector) : List QStr :=
  match v.storage with
  | .str offsets bytes => q_vec_decode_strings offsets bytes v.count
  | _ => []

def isStringScalar : QValue → Bool
  | .VString _ => true
  | _ => false

/-- The vec-scalar branch of `q_vec_cmp_str_eq` (`a` a validated STR vector,
`scalar` a string). -/
def strEqVecScalar (va : QVector) (scalar : QStr) (negate : Bool) : QValue :=
  let strs := strVecStrings va
  .VVector (mkCmpOut va.count va.has_nulls
    (fun i => q_vec_is_null_at va i)
    (fun i =>
      let eq := strs.getD i [] = scalar
      if negate then !eq else eq))

/-- `q_vec_cmp_str_eq`: STR equality (negated for `neq`) over vec-vec and
vec-scalar shapes; the source's scalar-vec case swaps its operands and
recurses, landing in the vec-scalar branch, which is inlined here. -/
def q_vec_cmp_str_eq (a b : QValue) (negate : Bool) : QValue :=
  let aStr := q_vec_is_type a .STR
  let bStr := q_vec_is_type b .STR
  if aStr && bStr then
    match getVec a, getVec b with
    | some va, some vb =>
      if va.count ≠ vb.count then .VNull
      else
        let aStrs := strVecStrings va
        let bStrs := strVecStrings vb
        .VVector (mkCmpOut va.count (va.has_nulls || vb.has_nulls)
          (fun i => q_vec_is_null_at va i || q_vec_is_null_at vb i)
          (fun i =>
            let eq := aStrs.getD i [] = bStrs.getD i []
            if negate then !eq else eq))
    | _, _ => .VNull
  else if aStr && isStringScalar b then
    match getVec a with
    | some va => strEqVecScalar va (string_val_bits b) negate
    | none => .VNull
  else if bStr && isStringScalar a then
    match getVec b with
    | some vb => strEqVecScalar vb (string_val_bits a) negate
    | none => .VNull
  else .VNull

/-- Common body of `q_vec_lt`/`q_vec_lte`/`q_vec_gt`/`q_vec_gte`: try the I64
comparison kernel when either operand is a valid I64 vector, fall back to
the F64 kernel, and return the null sentinel (after a stderr diagnostic)
when both decline. -/
def q_vec_cmp_num_dispatch (a b : QValue) (opI : Int → Int → Bool)
    (opF : Rat → Rat → Bool) : QValue :=
  if q_vec_is_type a .I64 || q_vec_is_type b .I64 then
    match q_vec_cmp_i64_impl a b opI with
    | .VNull => q_vec_cmp_f64_impl a b opF
    | out => out
  else q_vec_cmp_f64_impl a b opF

/-- `q_vec_lt`. -/
def q_vec_lt (a b : QValue) : QValue :=
  q_vec_cmp_num_dispatch a b (fun x y => decide (x < y)) (fun x y => decide (x < y))

/-- `q_vec_lte`. -/
def q_vec_lte (a b : QValue) : QValue :=
  q_vec_cmp_num_dispatch a b (fun x y => decide (x ≤ y)) (fun x y => decide (x ≤ y))

/-- `q_vec_gt`. -/
def q_vec_gt (a b : QValue) : QValue :=
  q_vec_cmp_num_dispatch a b (fun x y => decide (y < x)) (fun x y => decide (y < x))

/-- `q_vec_gte`. -/
def q_vec_gte (a b : QValue) : QValue :=
  q_vec_cmp_num_dispatch a b (fun x y => decide (y ≤ x)) (fun x y => decide (y ≤ x))

/-- Common body of `q_vec_eq`/`q_vec_neq`: I64 kernel, then F64, then BOOL,
then STR; the null sentinel (after a stderr diagnostic) when all decline. -/
def q_vec_eq_fallback (a b : QValue) (opF : Rat → Rat → Bool)
    (opB : Bool → Bool → Bool) (negate : Bool) : QValue :=
  match q_vec_cmp_f64_impl a b opF with
  | .VNull =>
    match q_vec_cmp_bool_impl a b opB with
    | .VNull => q_vec_cmp_str_eq a b negate
    | out => out
  | out => out

def q_vec_eq_dispatch (a b : QValue) (opI : Int → Int → Bool)
    (opF : Rat → Rat → Bool) (opB : Bool → Bool → Bool) (negate : Bool) :
    QValue :=
  if q_vec_is_type a .I64 || q_vec_is_type b .I64 then
    match q_vec_cmp_i64_impl a b opI with
    | .VNull => q_vec_eq_fallback a b opF opB negate
    | out => out
  else q_vec_eq_fallback a b opF opB negate

/-- `q_vec_eq`. -/
def q_vec_eq (a b : QValue) : QValue :=
  q_vec_eq_dispatch a b (fun x y => decide (x = y)) (fun x y => decide (x = y))
    (fun x y => x == y) false

/-- `q_vec_neq`. -/
def q_vec_neq (a b : QValue) : QValue :=
  q_vec_eq_dispatch a b (fun x y => decide (x ≠ y)) (fun x y => decide (x ≠ y))
    (fun x y => x != y) true

/-- The dtype-inference state machine of `q_to_vector` (`Mode`). -/
inductive ScanMode
  | UNKNOWN | I64M | F64M | STRM | INVALID
deriving DecidableEq, Repr

/-- One step of the `q_to_vector` element-type scan.  Once INVALID the source
returns immediately; the step function is absorbing on INVALID, so folding it
over the whole list classifies identically. -/
def scanStep (m : ScanMode) (item : QValue) : ScanMode :=
  match item with
  | .VNull => m
  | .VInt _ => match m with
    | .UNKNOWN => .I64M
    | .I64M => .I64M
    | _ => .INVALID
  | .VFloat _ => match m with
    | .UNKNOWN => .F64M
    | .F64M => .F64M
    | _ => .INVALID
  | .VString _ => match m with
    | .UNKNOWN => .STRM
    | .STRM => .STRM
    | _ => .INVALID
  | _ => .INVALID

/-- The full element-type scan of `q_to_vector`. -/
def scanMode (items : List QValue) : ScanMode := items.foldl scanStep .UNKNOWN

def isVNull : QValue → Bool
  | .VNull => true
  | _ => false

/-- `q_to_vector`: a valid vector clones; an invalid vector or non-list input
is the null sentinel (with a stderr diagnostic); a list is scanned for a
homogeneous element type (empty/all-null defaults to I64) and decoded into a
fresh typed vector with a null mask when any element is `Null`. -/
def q_to_vector (input : QValue) : QValue :=
  match input with
  | .VVector v => if q_vec_validate v then q_vec_clone input else .VNull
  | .VList items =>
    let n := items.length
    let mode := scanMode items
    let mode := if mode = .UNKNOWN then .I64M else mode
    match mode with
    | .F64M =>
      .VVector {
        type := .F64
        count := n
        has_nulls := items.any isVNull
        nulls := if items.any isVNull then
                   items.map (fun it => if isVNull it then 1 else 0)
                 else []
        storage := .f64 (items.map
          (fun it => if isVNull it then 0 else float_val_bits it)) }
    | .I64M =>
      .VVector {
        type := .I64
        count := n
        has_nulls := items.any isVNull
        nulls := if items.any isVNull then
                   items.map (fun it => if isVNull it then 1 else 0)
                 else []
        storage := .i64 (items.map
          (fun it => if isVNull it then 0 else int_val_bits it)) }
    | .STRM =>
      let values := items.map (fun it => if isVNull it then [] else string_val_bits it)
      let enc := q_vec_encode_strings values
      .VVector {
        type := .STR
        count := n
        has_nulls := items.any isVNull
        nulls := if items.any isVNull then
                   items.map (fun it => if isVNull it then 1 else 0)
                 else []
        storage := .str enc.1 enc.2 }
    | _ => .VNull
  | _ => .VNull

/-- Per-element decode of a vector into a boxed scalar, as performed by the
`q_to_list` loop: the null check reads `has_nulls`, the mask length and the
mask byte; the payload is read from the storage matching the dtype (the
source switches on `v.type` and `std::get`s the corresponding storage, which
agree whenever the vector is structurally consistent).  The source's STR case
decodes the whole table at the first non-null element and bulk-appends the
rest, with identical per-element results. -/
def q_vec_elem (v : QVector) (i : Nat) : QValue :=
  if v.has_nulls && decide (i < v.nulls.length) && (v.nulls.getD i 0 != 0) then
    .VNull
  else match v.storage with
    | .i64 xs => .VInt (xs.getD i 0)
    | .f64 xs => .VFloat (xs.getD i 0)
    | .boolv xs => .VBool (xs.getD i 0 != 0)
    | .str offsets bytes =>
      .VString (byteSlice bytes (offsets.getD i 0) (offsets.getD (i + 1) 0))

/-- `q_to_list`: identity on lists; a vector is decoded element by element
respecting the null mask; other input is the null sentinel (with a stderr
diagnostic). -/
def q_to_list (input : QValue) : QValue :=
  match input with
  | .VList xs => .VList xs
  | .VVector v => .VList ((List.range v.count).map (q_vec_elem v))
  | _ => .VNull

/-- `q_vec_get_scalar`: integer indexing with negative indices counting from
the end; out-of-range or null-at-index yield `Null`.  (The source narrows the
index through `int`; the model keeps the mathematical integer.) -/
def q_vec_get_scalar (vec index : QValue) : QValue :=
  match vec, index with
  | .VVector v, .VInt idx0 =>
    let len : Int := (v.count : Int)
    let idx := if idx0 < 0 then len + idx0 else idx0
    if idx < 0 || len ≤ idx then .VNull
    else
      let i := idx.toNat
      if q_vec_is_null_at v i then .VNull
      else match v.storage with
        | .f64 xs => .VFloat (xs.getD i 0)
        | .i64 xs => .VInt (xs.getD i 0)
        | .boolv xs => .VBool (xs.getD i 0 != 0)
        | .str offsets bytes =>
          .VString (byteSlice bytes (offsets.getD i 0) (offsets.getD (i + 1) 0))
  | _, _ => .VNull

/-- `q_vec_mask_filter`: requires a BOOL mask vector of the data's length; an
element is kept when the mask is non-null and non-zero there; the output is a
fresh vector of the data's dtype whose null mask (allocated only when some
kept element was null) reflects the kept elements' nullness.  The source
pushes kept elements in index order and then rewrites the mask positions with
a running counter; both loops are rendered here as maps over the list of kept
indices. -/
def q_vec_mask_filter (data mask : QValue) : QValue :=
  match data, mask with
  | .VVector dv, .VVector mv =>
    if !decide (mv.type = .BOOL) then .VNull
    else if dv.count ≠ mv.count then .VNull
    else match mv.storage with
      | .boolv maskBits =>
        let n := dv.count
        let keep : Nat → Bool :=
          fun i => !q_vec_is_null_at mv i && maskBits.getD i 0 != 0
        let kept := (List.range n).filter keep
        let hasN := kept.any (fun i => q_vec_is_null_at dv i)
        let outNulls := if hasN then
            kept.map (fun i => if q_vec_is_null_at dv i then 1 else 0)
          else []
        match dv.storage with
        | .f64 xs =>
          let outv := kept.map (fun i => xs.getD i 0)
          .VVector ⟨.F64, outv.length, hasN, outNulls, .f64 outv⟩
        | .i64 xs =>
          let outv := kept.map (fun i => xs.getD i 0)
          .VVector ⟨.I64, outv.length, hasN, outNulls, .i64 outv⟩
        | .boolv xs =>
          let outv := kept.map (fun i => xs.getD i 0)
          .VVector ⟨.BOOL, outv.length, hasN, outNulls, .boolv outv⟩
        | .str offsets bytes =>
          let strs := q_vec_decode_strings offsets bytes n
          let filtered := kept.map (fun i => strs.getD i [])
          let enc := q_vec_encode_strings filtered
          .VVector ⟨.STR, filtered.length, hasN, outNulls, .str enc.1 enc.2⟩
      | _ => .VNull
  | _, _ => .VNull

/-! ## Scalar operators (`ops/arithmetic.hpp`, `ops/comparison.hpp`) -/

/-- `quark::detail::either_float`. -/
def either_float (a b : QValue) : Bool :=
  match a, b with
  | .VFloat _, _ => true
  | _, .VFloat _ => true
  | _, _ => false

/-- `quark::detail::to_double` (textually identical to
`q_to_double_scalar`). -/
def qd_to_double (v : QValue) : Rat := q_to_double_scalar v

/-- `q_add`: vector operands route to `q_vec_add`; string+string
concatenates; other non-numeric operands are the `Null` poison value; both
ints add as ints; otherwise float promotion. -/
def q_add (a b : QValue) : QValue :=
  if q_vec_has_valid_handle a || q_vec_has_valid_handle b then q_vec_add a b
  else match a, b with
  | .VString s, .VString t => .VString (s ++ t)
  | _, _ =>
    if !q_is_numeric_scalar a || !q_is_numeric_scalar b then .VNull
    else if either_float a b then .VFloat (qd_to_double a + qd_to_double b)
    else .VInt (int_val_bits a + int_val_bits b)

/-- `q_sub`. -/
def q_sub (a b : QValue) : QValue :=
  if q_vec_has_valid_handle a || q_vec_has_valid_handle b then q_vec_sub a b
  else if !q_is_numeric_scalar a || !q_is_numeric_scalar b then .VNull
  else if either_float a b then .VFloat (qd_to_double a - qd_to_double b)
  else .VInt (int_val_bits a - int_val_bits b)

/-- `q_mul`. -/
def q_mul (a b : QValue) : QValue :=
  if q_vec_has_valid_handle a || q_vec_has_valid_handle b then q_vec_mul a b
  else if !q_is_numeric_scalar a || !q_is_numeric_scalar b then .VNull
  else if either_float a b then .VFloat (qd_to_double a * qd_to_double b)
  else .VInt (int_val_bits a * int_val_bits b)

/-- `q_div`: vector operands route to `q_vec_div`; a zero divisor yields
`Null`; otherwise a Float quotient, for Int operands too. -/
def q_div (a b : QValue) : QValue :=
  if q_vec_has_valid_handle a || q_vec_has_valid_handle b then q_vec_div a b
  else if !q_is_numeric_scalar a || !q_is_numeric_scalar b then .VNull
  else
    let bv := qd_to_double b
    if bv = 0 then .VNull
    else .VFloat (qd_to_double a / bv)

/-- `q_mod`: Int operands only; a zero divisor yields `Null`; C's `%` is
truncated remainder (`Int.tmod`). -/
def q_mod (a b : QValue) : QValue :=
  match a, b with
  | .VInt x, .VInt y => if y = 0 then .VNull else .VInt (Int.tmod x y)
  | _, _ => .VNull

/-- Diagnostics `q_div` writes to stderr: its body and the vector kernels it
calls (`q_vec_div`, `q_vec_div_i64`, `q_vec_binary_impl`) contain no stderr
output, so this is constantly empty. -/
def q_div_diag (_a _b : QValue) : List QStr := []

/-- Diagnostics `q_mod` writes to stderr: none. -/
def q_mod_diag (_a _b : QValue) : List QStr := []

/-- `q_lt` from `ops/comparison.hpp`: float promotion over the raw payload
reads, always producing a `Bool` scalar.  There is no vector check: a vector
operand has its union bits read as numbers. -/
def q_lt (a b : QValue) : QValue :=
  if either_float a b then .VBool (decide (qd_to_double a < qd_to_double b))
  else .VBool (decide (int_val_bits a < int_val_bits b))

/-- `q_lte`. -/
def q_lte (a b : QValue) : QValue :=
  if either_float a b then .VBool (decide (qd_to_double a ≤ qd_to_double b))
  else .VBool (decide (int_val_bits a ≤ int_val_bits b))

/-- `q_gt`. -/
def q_gt (a b : QValue) : QValue :=
  if either_float a b then .VBool (decide (qd_to_double b < qd_to_double a))
  else .VBool (decide (int_val_bits b < int_val_bits a))

/-- `q_gte`. -/
def q_gte (a b : QValue) : QValue :=
  if either_float a b then .VBool (decide (qd_to_double b ≤ qd_to_double a))
  else .VBool (decide (int_val_bits b ≤ int_val_bits a))

/-! ## Categorical encoding (modelled from the spec)

No categorical code exists under `src/`; the following definitions are
modelled from the spec's description of `to_categorical` /
`from_categorical`. -/

/-- First index of `s` in the dictionary, if present. -/
def dictFind (dict : List QStr) (s : QStr) : Option Nat :=
  match dict with
  | [] => none
  | t :: rest => if t = s then some 0 else (dictFind rest s).map (· + 1)

/-- Modelled from the spec: the dictionary update and code for one string
element — the code of its first occurrence, extending the dictionary in
first-seen order when the string is new. -/
def cat_code (dict : List QStr) (s : QStr) : List QStr × Int :=
  match dictFind dict s with
  | some k => (dict, (k : Int))
  | none => (dict ++ [s], (dict.length : Int))

/-- Modelled from the spec: one element of the `to_categorical` encoding
loop.  A `Null` element appends the code `-1`; a string element appends its
`cat_code`. -/
def to_categorical_step (st : List QStr × List Int) (item : QValue) :
    List QStr × List Int :=
  match item with
  | .VNull => (st.1, st.2 ++ [-1])
  | it =>
    ((cat_code st.1 (string_val_bits it)).1,
      st.2 ++ [(cat_code st.1 (string_val_bits it)).2])

/-- Modelled from the spec: `to_categorical` over a list of strings (with
`Null` elements allowed) produces a first-seen-order dictionary of distinct
values and a parallel codes array using `-1` for null elements.
(`to_categorical` is absent from `src/`; only the spec describes it.) -/
def to_categorical (items : List QValue) : List QStr × List Int :=
  items.foldl to_categorical_step ([], [])

/-- Modelled from the spec: `from_categorical` is the inverse decoding, a
code of `-1` becoming `Null` and any other code indexing the dictionary. -/
def from_categorical (dict : List QStr) (codes : List Int) : List QValue :=
  codes.map (fun c => if c = -1 then .VNull else .VString (dict.getD c.toNat []))

/-! ## Operation-kind enumerations used to quantify claims over kernels -/

/-- The four elementwise arithmetic vector kernels. -/
inductive VecArithKind
  | add | sub | mul | div
deriving DecidableEq, Repr

def vecArithRun : VecArithKind → QValue → QValue → QValue
  | .add => q_vec_add
  | .sub => q_vec_sub
  | .mul => q_vec_mul
  | .div => q_vec_div

/-- The six comparison vector kernels. -/
inductive VecCmpKind
  | lt | lte | gt | gte | eq | neq
deriving DecidableEq, Repr

def vecCmpRun : VecCmpKind → QValue → QValue → QValue
  | .lt => q_vec_lt
  | .lte => q_vec_lte
  | .gt => q_vec_gt
  | .gte => q_vec_gte
  | .eq => q_vec_eq
  | .neq => q_vec_neq

/-- Nullness of an operand at an index: a vector operand consults its null
mask; a scalar operand contributes no nulls. -/
def valueNullAt (q : QValue) (i : Nat) : Bool :=
  match q with
  | .VVector v => q_vec_is_null_at v i
  | _ => false

/-- The five-element vector built by `testfiles/smoke_vectors.cpp` (integer
literals pushed into a `qv_vector()` F64 column). -/
def smokeVec : QVector := ⟨.F64, 5, false, [], .f64 [10, 20, 30, 40, 50]⟩

/-! ## General helper lemmas -/

theorem getD_range_map {α : Type} (f : Nat → α) (n i : Nat) (d : α) :
    ((List.range n).map f).getD i d = if i < n then f i else d := by
  rcases Nat.lt_or_ge i n with h | h
  · simp [List.getD_eq_getElem?_getD, List.getElem?_map, List.getElem?_range, h]
  · rw [List.getD_eq_getElem?_getD, List.getElem?_map,
      List.getElem?_eq_none (by simpa using h)]
    simp [Nat.not_lt.2 h]

theorem is_null_at_true {v : QVector} {i : Nat}
    (h : q_vec_is_null_at v i = true) : v.has_nulls = true ∧ i < v.count := by
  unfold q_vec_is_null_at at h
  split at h
  · exact absurd h (by simp)
  · rename_i hc
    simp only [Bool.or_eq_true, Bool.not_eq_true', decide_eq_true_eq, not_or] at hc
    exact ⟨by simpa using hc.1, Nat.lt_of_not_le hc.2⟩

theorem q_vec_is_null_at_mkCmpOut (n : Nat) (h : Bool) (nullAt bit : Nat → Bool)
    (i : Nat) :
    q_vec_is_null_at (mkCmpOut n h nullAt bit) i =
      (h && decide (i < n) && nullAt i) := by
  cases h with
  | false => simp [q_vec_is_null_at, mkCmpOut]
  | true =>
    by_cases hi : i < n
    · simp [q_vec_is_null_at, mkCmpOut, getD_range_map, hi, Nat.not_le.2 hi]
      cases hna : nullAt i <;> simp [hna]
    · simp [q_vec_is_null_at, mkCmpOut, Nat.le_of_not_lt hi, hi]

theorem q_vec_validate_mkCmpOut (n : Nat) (h : Bool) (nullAt bit : Nat → Bool) :
    q_vec_validate (mkCmpOut n h nullAt bit) = true := by
  cases h <;>
    simp [q_vec_validate, mkCmpOut, q_vec_storage_matches_type, List.isEmpty_iff]

theorem q_vec_validate_mkF64Out (xs : List Rat) :
    q_vec_validate (mkF64Out xs) = true := by
  simp [q_vec_validate, mkF64Out, q_vec_storage_matches_type, List.isEmpty_iff]

theorem q_vec_validate_mkI64Out (xs : List Int) :
    q_vec_validate (mkI64Out xs) = true := by
  simp [q_vec_validate, mkI64Out, q_vec_storage_matches_type, List.isEmpty_iff]

theorem validate_f64_len {v : QVector} {xs : List Rat} (hs : v.storage = .f64 xs)
    (hv : q_vec_validate v = true) : xs.length = v.count := by
  unfold q_vec_validate at hv
  rw [hs] at hv
  simp only [Bool.and_eq_true, decide_eq_true_eq] at hv
  exact hv.1.2

theorem validate_i64_len {v : QVector} {xs : List Int} (hs : v.storage = .i64 xs)
    (hv : q_vec_validate v = true) : xs.length = v.count := by
  unfold q_vec_validate at hv
  rw [hs] at hv
  simp only [Bool.and_eq_true, decide_eq_true_eq] at hv
  exact hv.1.2

theorem validate_bool_len {v : QVector} {xs : List Nat}
    (hs : v.storage = .boolv xs) (hv : q_vec_validate v = true) :
    xs.length = v.count := by
  unfold q_vec_validate at hv
  rw [hs] at hv
  simp only [Bool.and_eq_true, decide_eq_true_eq] at hv
  exact hv.1.2

theorem validate_nulls_len {v : QVector} (hv : q_vec_validate v = true)
    (hn : v.has_nulls = true) : v.nulls.length = v.count := by
  unfold q_vec_validate at hv
  rw [hn] at hv
  simp only [Bool.and_eq_true, if_true, decide_eq_true_eq] at hv
  exact hv.2

theorem f64_const_spec {x : QValue} {xs : List Rat}
    (h : q_vec_f64_const x = some xs) :
    ∃ v, x = .VVector v ∧ v.storage = .f64 xs ∧ v.type = .F64 ∧
      q_vec_validate v = true ∧ xs.length = v.count := by
  unfold q_vec_f64_const at h
  split at h
  · rename_i hin
    cases x with
    | VVector v =>
      simp only [getVec, Option.bind_some, Option.some_bind] at h
      unfold q_vec_is_type at hin
      simp only [Bool.and_eq_true, decide_eq_true_eq] at hin
      cases hs : v.storage <;> rw [hs] at h <;> simp [QStorage.f64list] at h
      subst h
      exact ⟨v, rfl, hs, hin.1, hin.2, validate_f64_len hs hin.2⟩
    | _ => simp [getVec] at h
  · exact absurd h (by simp)

theorem i64_const_spec {x : QValue} {xs : List Int}
    (h : q_vec_i64_const x = some xs) :
    ∃ v, x = .VVector v ∧ v.storage = .i64 xs ∧ v.type = .I64 ∧
      q_vec_validate v = true ∧ xs.length = v.count := by
  unfold q_vec_i64_const at h
  split at h
  · rename_i hin
    cases x with
    | VVector v =>
      simp only [getVec, Option.bind_some, Option.some_bind] at h
      unfold q_vec_is_type at hin
      simp only [Bool.and_eq_true, decide_eq_true_eq] at hin
      cases hs : v.storage <;> rw [hs] at h <;> simp [QStorage.i64list] at h
      subst h
      exact ⟨v, rfl, hs, hin.1, hin.2, validate_i64_len hs hin.2⟩
    | _ => simp [getVec] at h
  · exact absurd h (by simp)

theorem bool_const_spec {x : QValue} {xs : List Nat}
    (h : q_vec_bool_const x = some xs) :
    ∃ v, x = .VVector v ∧ v.storage = .boolv xs ∧ v.type = .BOOL ∧
      q_vec_validate v = true ∧ xs.length = v.count := by
  unfold q_vec_bool_const at h
  split at h
  · rename_i hin
    cases x with
    | VVector v =>
      simp only [getVec, Option.bind_some, Option.some_bind] at h
      unfold q_vec_is_type at hin
      simp only [Bool.and_eq_true, decide_eq_true_eq] at hin
      cases hs : v.storage <;> rw [hs] at h <;> simp [QStorage.boolList] at h
      subst h
      exact ⟨v, rfl, hs, hin.1, hin.2, validate_bool_len hs hin.2⟩
    | _ => simp [getVec] at h
  · exact absurd h (by simp)

/-! ## C8: scalar numeric promotion -/

/-- C8: scalar numeric promotion: `add(Int a, Int b) = Int (a+b)`,
`add(Int a, Float x) = Float (a+x)`, and `div` on numeric operands with a
non-zero divisor always returns a Float quotient; in particular
`add(Int 2, Int 3) = Int 5`, `add(Int 2, Float 3.0) = Float 5.0` and
`div(Int 6, Int 3) = Float 2.0`. -/
theorem claim_C8_scalar_promotion :
    (∀ a b : Int, q_add (.VInt a) (.VInt b) = .VInt (a + b)) ∧
    (∀ (a : Int) (x : Rat), q_add (.VInt a) (.VFloat x) = .VFloat ((a : Rat) + x)) ∧
    (∀ a b : QValue, q_is_numeric_scalar a = true → q_is_numeric_scalar b = true →
      qd_to_double b ≠ 0 → q_div a b = .VFloat (qd_to_double a / qd_to_double b)) ∧
    q_add (.VInt 2) (.VInt 3) = .VInt 5 ∧
    q_add (.VInt 2) (.VFloat 3) = .VFloat 5 ∧
    q_div (.VInt 6) (.VInt 3) = .VFloat 2 := by
  refine ⟨fun a b => rfl, fun a x => rfl, fun a b ha hb hz => ?_, rfl, by
    show QValue.VFloat (((2 : Int) : Rat) + 3) = .VFloat 5
    norm_num, by
    show QValue.VFloat ((6 : Rat) / 3) = .VFloat 2
    norm_num⟩
  cases a <;> cases b <;> simp_all [q_div, q_vec_has_valid_handle,
    q_is_numeric_scalar, hz]

/-- Witness for C8 at `div(Int 6, Int 3)`. -/
theorem claim_C8_scalar_promotion_witness :
    q_div (.VInt 6) (.VInt 3) = .VFloat (qd_to_double (.VInt 6) / qd_to_double (.VInt 3)) :=
  claim_C8_scalar_promotion.2.2.1 (.VInt 6) (.VInt 3) rfl rfl (by
    show ((3 : Int) : Rat) ≠ 0
    norm_num)

/-! ## C9: zero divisors return Null silently -/

/-- C9: for every numeric scalar `a`, `div(a, Int 0)` and `div(a, Float 0.0)`
are `Null`, and for every integer `a`, `mod(Int a, Int 0)` is `Null`; no
diagnostic is emitted in any of these cases. -/
theorem claim_C9_zero_divisor_null :
    (∀ a : QValue, q_is_numeric_scalar a = true →
      q_div a (.VInt 0) = .VNull ∧ q_div a (.VFloat 0) = .VNull ∧
      q_div_diag a (.VInt 0) = [] ∧ q_div_diag a (.VFloat 0) = []) ∧
    (∀ a : Int, q_mod (.VInt a) (.VInt 0) = .VNull ∧
      q_mod_diag (.VInt a) (.VInt 0) = []) := by
  refine ⟨fun a ha => ?_, fun a => ⟨rfl, rfl⟩⟩
  cases a <;> simp_all [q_div, q_div_diag, q_vec_has_valid_handle,
    q_is_numeric_scalar, qd_to_double, q_to_double_scalar, int_val_bits]

/-- Witness for C9 at `a = Int 7`. -/
theorem claim_C9_zero_divisor_null_witness :
    q_div (.VInt 7) (.VInt 0) = .VNull ∧ q_div (.VInt 7) (.VFloat 0) = .VNull ∧
    q_div_diag (.VInt 7) (.VInt 0) = [] ∧ q_div_diag (.VInt 7) (.VFloat 0) = [] :=
  claim_C9_zero_divisor_null.1 (.VInt 7) rfl

/-! ## C3: comparison dispatch never reaches the vector kernels -/

/-- C3 (code bug): the claim says `q_lt`/`q_gt`/… route vector operands to
the vector comparison kernels.  The code does not: `ops/comparison.hpp`
contains no vector check (unlike the arithmetic operators), so
`q_gt(vector, Int 25)` — the exact call of `testfiles/smoke_vectors.cpp`,
whose printed expectations require a mask — compares the union's raw payload
bits and yields a `Bool` scalar, while the kernel `q_vec_gt` the dispatch
layer is claimed to reach yields a 5-element BOOL vector. -/
theorem claim_C3_cmp_dispatch_code_bug :
    (∃ b, q_gt (.VVector smokeVec) (.VInt 25) = .VBool b) ∧
    (∃ w, q_vec_gt (.VVector smokeVec) (.VInt 25) = .VVector w ∧
      w.type = .BOOL ∧ w.count = 5) ∧
    (∃ b, q_lt (.VVector smokeVec) (.VInt 25) = .VBool b) ∧
    (∃ b, q_lte (.VVector smokeVec) (.VInt 25) = .VBool b) ∧
    (∃ b, q_gte (.VVector smokeVec) (.VInt 25) = .VBool b) := by
  refine ⟨⟨false, rfl⟩, ⟨_, rfl, rfl, rfl⟩, ⟨true, rfl⟩, ⟨true, rfl⟩, ⟨false, rfl⟩⟩

/-! ## C2: mixed integer/float operands in the arithmetic kernels -/

theorem storage_f64_of_type {v : QVector} (ht : v.type = .F64)
    (hv : q_vec_validate v = true) : ∃ xs, v.storage = .f64 xs := by
  unfold q_vec_validate q_vec_storage_matches_type at hv
  rw [ht] at hv
  cases hs : v.storage <;> rw [hs] at hv <;> simp_all

theorem storage_i64_of_type {v : QVector} (ht : v.type = .I64)
    (hv : q_vec_validate v = true) : ∃ xs, v.storage = .i64 xs := by
  unfold q_vec_validate q_vec_storage_matches_type at hv
  rw [ht] at hv
  cases hs : v.storage <;> rw [hs] at hv <;> simp_all

theorem storage_bool_of_type {v : QVector} (ht : v.type = .BOOL)
    (hv : q_vec_validate v = true) : ∃ xs, v.storage = .boolv xs := by
  unfold q_vec_validate q_vec_storage_matches_type at hv
  rw [ht] at hv
  cases hs : v.storage <;> rw [hs] at hv <;> simp_all

theorem storage_str_of_type {v : QVector} (ht : v.type = .STR)
    (hv : q_vec_validate v = true) :
    ∃ offsets bytes, v.storage = .str offsets bytes := by
  unfold q_vec_validate q_vec_storage_matches_type at hv
  rw [ht] at hv
  cases hs : v.storage <;> rw [hs] at hv <;> simp_all

theorem f64_const_none_of_i64 {va : QVector} (h : va.type = .I64) :
    q_vec_f64_const (.VVector va) = none := by
  simp [q_vec_f64_const, q_vec_is_type, h]

theorem i64_const_none_of_f64 {vb : QVector} (h : vb.type = .F64) :
    q_vec_i64_const (.VVector vb) = none := by
  simp [q_vec_i64_const, q_vec_is_type, h]

theorem i64_const_some_of_valid {va : QVector}
    (h : q_vec_is_type (.VVector va) .I64 = true) :
    ∃ xs, va.storage = .i64 xs ∧ q_vec_i64_const (.VVector va) = some xs := by
  unfold q_vec_is_type at h
  simp only [Bool.and_eq_true, decide_eq_true_eq] at h
  obtain ⟨xs, hs⟩ := storage_i64_of_type h.1 h.2
  refine ⟨xs, hs, ?_⟩
  simp [q_vec_i64_const, q_vec_is_type, h.1, h.2, getVec, hs, QStorage.i64list]

/-- A valid one-element I64 vector. -/
def i64Vec1 : QVector := ⟨.I64, 1, false, [], .i64 [1]⟩

/-- A valid one-element F64 vector. -/
def f64Vec1 : QVector := ⟨.F64, 1, false, [], .f64 [2]⟩

/-- C2 counterexample: adding a valid I64 vector and a Float scalar does not
fall through to a successful float64 path — it returns the `Null` sentinel,
because the float64 kernel only accepts F64 vector operands. -/
theorem claim_C2_counterexample :
    q_vec_add (.VVector i64Vec1) (.VFloat 2) = .VNull ∧
    q_vec_add (.VVector i64Vec1) (.VVector f64Vec1) = .VNull := ⟨rfl, rfl⟩

/-- C2 amended: when one operand is a valid I64 vector and the other is a
Float scalar or a (valid) F64 vector, each of the four arithmetic kernels
returns the `Null` sentinel: the integer path's preconditions fail and the
float64 fallback requires its vector operands to be F64 vectors, so mixed
integer/float promotion does not succeed. -/
theorem claim_C2_amended :
    ∀ (k : VecArithKind) (va : QVector),
      q_vec_is_type (.VVector va) .I64 = true →
      (∀ x : Rat, vecArithRun k (.VVector va) (.VFloat x) = .VNull ∧
                  vecArithRun k (.VFloat x) (.VVector va) = .VNull) ∧
      (∀ vb : QVector, q_vec_is_type (.VVector vb) .F64 = true →
        vecArithRun k (.VVector va) (.VVector vb) = .VNull ∧
        vecArithRun k (.VVector vb) (.VVector va) = .VNull) := by
  intro k va hva
  have hty : va.type = .I64 := by
    unfold q_vec_is_type at hva
    simp only [Bool.and_eq_true, decide_eq_true_eq] at hva
    exact hva.1
  have hfa := f64_const_none_of_i64 hty
  obtain ⟨axs, hasv, hia⟩ := i64_const_some_of_valid hva
  constructor
  · intro x
    cases k <;>
      simp [vecArithRun, q_vec_add, q_vec_sub, q_vec_mul, q_vec_div, hva,
        q_vec_binary_i64_impl, q_vec_binary_impl, q_vec_div_i64,
        q_vec_has_valid_handle, q_is_integral_scalar, q_is_numeric_scalar,
        hfa, hia]
  · intro vb hvb
    have htyb : vb.type = .F64 := by
      unfold q_vec_is_type at hvb
      simp only [Bool.and_eq_true, decide_eq_true_eq] at hvb
      exact hvb.1
    have hib := i64_const_none_of_f64 htyb
    have hfb : q_vec_is_type (.VVector vb) .I64 = false := by
      simp [q_vec_is_type, htyb]
    cases k <;>
      simp [vecArithRun, q_vec_add, q_vec_sub, q_vec_mul, q_vec_div, hva, hfb,
        q_vec_binary_i64_impl, q_vec_binary_impl, q_vec_div_i64,
        q_vec_has_valid_handle, q_is_integral_scalar, q_is_numeric_scalar,
        hfa, hia, hib, f64_const_none_of_i64 hty]

/-- Witness for C2's amended theorem at `add`, `i64Vec1` and `Float 2` /
`f64Vec1`. -/
theorem claim_C2_amended_witness :
    vecArithRun .add (.VVector i64Vec1) (.VFloat 2) = .VNull ∧
    vecArithRun .add (.VVector i64Vec1) (.VVector f64Vec1) = .VNull :=
  ⟨((claim_C2_amended .add i64Vec1 (by rfl)).1 2).1,
   ((claim_C2_amended .add i64Vec1 (by rfl)).2 f64Vec1 (by rfl)).1⟩

/-! ## C1: null propagation in the binary kernels -/

theorem valueNullAt_eq {a : QValue} {va : QVector} (h : getVec a = some va)
    (i : Nat) : valueNullAt a i = q_vec_is_null_at va i := by
  cases a <;> simp [getVec] at h <;> simp [valueNullAt, h]

theorem valueNullAt_nonvec {b : QValue} (h : q_vec_has_valid_handle b = false)
    (i : Nat) : valueNullAt b i = false := by
  cases b <;> simp_all [valueNullAt, q_vec_has_valid_handle]

/-- A valid one-element F64 vector whose only element is null. -/
def f64VecNull1 : QVector := ⟨.F64, 1, true, [1], .f64 [1]⟩

/-- C1 counterexample: index 0 is null in the left operand, yet
`q_vec_add` produces a vector with no null mask at all — element 0 of the
result is not null, and its payload `3` was computed from the stored values.
The arithmetic kernels do not propagate nulls. -/
theorem claim_C1_counterexample :
    q_vec_is_null_at f64VecNull1 0 = true ∧
    q_vec_validate f64VecNull1 = true ∧
    q_vec_add (.VVector f64VecNull1) (.VVector f64Vec1) =
      .VVector (mkF64Out [3]) ∧
    q_vec_is_null_at (mkF64Out [3]) 0 = false ∧
    (mkF64Out [3]).has_nulls = false := by
  refine ⟨rfl, rfl, ?_, rfl, rfl⟩
  show QValue.VVector (mkF64Out [(1 : Rat) + 2]) = .VVector (mkF64Out [3])
  norm_num


theorem cmp_f64_impl_null_prop {a b : QValue} {op : Rat → Rat → Bool}
    {w : QVector} {i : Nat} (hw : q_vec_cmp_f64_impl a b op = .VVector w)
    (hn : (valueNullAt a i || valueNullAt b i) = true) :
    q_vec_is_null_at w i = true := by
  simp only [q_vec_cmp_f64_impl] at hw
  split at hw
  · exact absurd hw (by simp)
  · split at hw
    · split at hw
      · split at hw
        · exact absurd hw (by simp)
        · rename_i h1 h2 o1 o2 o3 o4 va vb av bv hga hgb hfa hfb hlen
          injection hw with hw
          subst hw
          obtain ⟨va2, hav, hsa, hta, hvva, hlena⟩ := f64_const_spec hfa
          obtain ⟨vb2, hbv, hsb, htb, hvvb, hlenb⟩ := f64_const_spec hfb
          rw [hav] at hga
          rw [hbv] at hgb
          simp only [getVec, Option.some.injEq] at hga hgb
          subst hga
          subst hgb
          rw [valueNullAt_eq (by rw [hav]; rfl) i,
            valueNullAt_eq (by rw [hbv]; rfl) i] at hn
          rw [q_vec_is_null_at_mkCmpOut]
          have hleq : av.length = bv.length := not_ne_iff.mp hlen
          rcases Bool.or_eq_true_iff.1 hn with h1 | h1
          · obtain ⟨hh, hlt⟩ := is_null_at_true h1
            have hia : i < av.length := by omega
            simp [hn, hh, hia]
          · obtain ⟨hh, hlt⟩ := is_null_at_true h1
            have hia : i < av.length := by omega
            simp [hn, hh, hia]
      · exact absurd hw (by simp)
    · split at hw
      · split at hw
        · rename_i h1 h2 h3 o1 o2 va av hga hfa
          injection hw with hw
          subst hw
          obtain ⟨va2, hav, hsa, hta, hvva, hlena⟩ := f64_const_spec hfa
          rw [hav] at hga
          simp only [getVec, Option.some.injEq] at hga
          subst hga
          have hbnv : q_vec_has_valid_handle b = false := by
            simp only [Bool.and_eq_true] at h3
            cases hb : q_vec_has_valid_handle b
            · rfl
            · exact absurd (by simp [h3.1, hb] :
                (q_vec_has_valid_handle a && q_vec_has_valid_handle b) = true) h2
          rw [valueNullAt_eq (by rw [hav]; rfl) i, valueNullAt_nonvec hbnv,
            Bool.or_false] at hn
          obtain ⟨hh, hlt⟩ := is_null_at_true hn
          rw [q_vec_is_null_at_mkCmpOut]
          have hia : i < av.length := by omega
          simp [hn, hh, hia]
        · exact absurd hw (by simp)
      · split at hw
        · split at hw
          · rename_i h1 h2 h3 h4 o1 o2 vb bv hgb hfb
            injection hw with hw
            subst hw
            obtain ⟨vb2, hbv, hsb, htb, hvvb, hlenb⟩ := f64_const_spec hfb
            rw [hbv] at hgb
            simp only [getVec, Option.some.injEq] at hgb
            subst hgb
            have hbv2 : q_vec_has_valid_handle b = true := by
              rw [hbv]; rfl
            have hanv : q_vec_has_valid_handle a = false := by
              cases ha : q_vec_has_valid_handle a
              · rfl
              · exact absurd (by simp [ha, hbv2] :
                  (q_vec_has_valid_handle a && q_vec_has_valid_handle b) = true) h2
            rw [valueNullAt_nonvec hanv, Bool.false_or,
              valueNullAt_eq (by rw [hbv]; rfl) i] at hn
            obtain ⟨hh, hlt⟩ := is_null_at_true hn
            rw [q_vec_is_null_at_mkCmpOut]
            have hib : i < bv.length := by omega
            simp [hn, hh, hib]
          · exact absurd hw (by simp)
        · exact absurd hw (by simp)


theorem valueNullAt_of_integral {b : QValue} (h : q_is_integral_scalar b = true)
    (i : Nat) : valueNullAt b i = false := by
  cases b <;> simp_all [valueNullAt, q_is_integral_scalar]

theorem valueNullAt_of_boolish {b : QValue} (h : q_is_boolish_scalar b = true)
    (i : Nat) : valueNullAt b i = false := by
  cases b <;> simp_all [valueNullAt, q_is_boolish_scalar]

theorem valueNullAt_of_string {b : QValue} (h : isStringScalar b = true)
    (i : Nat) : valueNullAt b i = false := by
  cases b <;> simp_all [valueNullAt, isStringScalar]

theorem cmp_i64_impl_null_prop {a b : QValue} {op : Int → Int → Bool}
    {w : QVector} {i : Nat} (hw : q_vec_cmp_i64_impl a b op = .VVector w)
    (hn : (valueNullAt a i || valueNullAt b i) = true) :
    q_vec_is_null_at w i = true := by
  simp only [q_vec_cmp_i64_impl] at hw
  split at hw
  · split at hw
    · rename_i h2 o1 o2 o3 o4 va vb av bv hga hgb hfa hfb
      split at hw
      · exact absurd hw (by simp)
      · rename_i hlen
        injection hw with hw
        subst hw
        obtain ⟨va2, hav, hsa, hta, hvva, hlena⟩ := i64_const_spec hfa
        obtain ⟨vb2, hbv, hsb, htb, hvvb, hlenb⟩ := i64_const_spec hfb
        rw [hav] at hga
        rw [hbv] at hgb
        simp only [getVec, Option.some.injEq] at hga hgb
        subst hga
        subst hgb
        rw [valueNullAt_eq (by rw [hav]; rfl) i,
          valueNullAt_eq (by rw [hbv]; rfl) i] at hn
        rw [q_vec_is_null_at_mkCmpOut]
        have hleq : av.length = bv.length := not_ne_iff.mp hlen
        rcases Bool.or_eq_true_iff.1 hn with h1 | h1
        · obtain ⟨hh, hlt⟩ := is_null_at_true h1
          have hia : i < av.length := by omega
          simp [hn, hh, hia]
        · obtain ⟨hh, hlt⟩ := is_null_at_true h1
          have hia : i < av.length := by omega
          simp [hn, hh, hia]
    · exact absurd hw (by simp)
  · split at hw
    · split at hw
      · rename_i h1 h2 o1 o2 va av hga hfa
        injection hw with hw
        subst hw
        obtain ⟨va2, hav, hsa, hta, hvva, hlena⟩ := i64_const_spec hfa
        rw [hav] at hga
        simp only [getVec, Option.some.injEq] at hga
        subst hga
        simp only [Bool.and_eq_true] at h2
        rw [valueNullAt_eq (by rw [hav]; rfl) i,
          valueNullAt_of_integral h2.2 i, Bool.or_false] at hn
        obtain ⟨hh, hlt⟩ := is_null_at_true hn
        rw [q_vec_is_null_at_mkCmpOut]
        have hia : i < av.length := by omega
        simp [hn, hh, hia]
      · exact absurd hw (by simp)
    · split at hw
      · split at hw
        · rename_i h1 h2 h3 o1 o2 vb bv hgb hfb
          injection hw with hw
          subst hw
          obtain ⟨vb2, hbv, hsb, htb, hvvb, hlenb⟩ := i64_const_spec hfb
          rw [hbv] at hgb
          simp only [getVec, Option.some.injEq] at hgb
          subst hgb
          simp only [Bool.and_eq_true] at h3
          rw [valueNullAt_of_integral h3.2 i, Bool.false_or,
            valueNullAt_eq (by rw [hbv]; rfl) i] at hn
          obtain ⟨hh, hlt⟩ := is_null_at_true hn
          rw [q_vec_is_null_at_mkCmpOut]
          have hib : i < bv.length := by omega
          simp [hn, hh, hib]
        · exact absurd hw (by simp)
      · exact absurd hw (by simp)

theorem cmp_bool_impl_null_prop {a b : QValue} {op : Bool → Bool → Bool}
    {w : QVector} {i : Nat} (hw : q_vec_cmp_bool_impl a b op = .VVector w)
    (hn : (valueNullAt a i || valueNullAt b i) = true) :
    q_vec_is_null_at w i = true := by
  simp only [q_vec_cmp_bool_impl] at hw
  split at hw
  · split at hw
    · rename_i h2 o1 o2 o3 o4 va vb av bv hga hgb hfa hfb
      split at hw
      · exact absurd hw (by simp)
      · rename_i hlen
        injection hw with hw
        subst hw
        obtain ⟨va2, hav, hsa, hta, hvva, hlena⟩ := bool_const_spec hfa
        obtain ⟨vb2, hbv, hsb, htb, hvvb, hlenb⟩ := bool_const_spec hfb
        rw [hav] at hga
        rw [hbv] at hgb
        simp only [getVec, Option.some.injEq] at hga hgb
        subst hga
        subst hgb
        rw [valueNullAt_eq (by rw [hav]; rfl) i,
          valueNullAt_eq (by rw [hbv]; rfl) i] at hn
        rw [q_vec_is_null_at_mkCmpOut]
        have hleq : av.length = bv.length := not_ne_iff.mp hlen
        rcases Bool.or_eq_true_iff.1 hn with h1 | h1
        · obtain ⟨hh, hlt⟩ := is_null_at_true h1
          have hia : i < av.length := by omega
          simp [hn, hh, hia]
        · obtain ⟨hh, hlt⟩ := is_null_at_true h1
          have hia : i < av.length := by omega
          simp [hn, hh, hia]
    · exact absurd hw (by simp)
  · split at hw
    · split at hw
      · rename_i h1 h2 o1 o2 va av hga hfa
        injection hw with hw
        subst hw
        obtain ⟨va2, hav, hsa, hta, hvva, hlena⟩ := bool_const_spec hfa
        rw [hav] at hga
        simp only [getVec, Option.some.injEq] at hga
        subst hga
        simp only [Bool.and_eq_true] at h2
        rw [valueNullAt_eq (by rw [hav]; rfl) i,
          valueNullAt_of_boolish h2.2 i, Bool.or_false] at hn
        obtain ⟨hh, hlt⟩ := is_null_at_true hn
        rw [q_vec_is_null_at_mkCmpOut]
        have hia : i < av.length := by omega
        simp [hn, hh, hia]
      · exact absurd hw (by simp)
    · split at hw
      · split at hw
        · rename_i h1 h2 h3 o1 o2 vb bv hgb hfb
          injection hw with hw
          subst hw
          obtain ⟨vb2, hbv, hsb, htb, hvvb, hlenb⟩ := bool_const_spec hfb
          rw [hbv] at hgb
          simp only [getVec, Option.some.injEq] at hgb
          subst hgb
          simp only [Bool.and_eq_true] at h3
          rw [valueNullAt_of_boolish h3.2 i, Bool.false_or,
            valueNullAt_eq (by rw [hbv]; rfl) i] at hn
          obtain ⟨hh, hlt⟩ := is_null_at_true hn
          rw [q_vec_is_null_at_mkCmpOut]
          have hib : i < bv.length := by omega
          simp [hn, hh, hib]
        · exact absurd hw (by simp)
      · exact absurd hw (by simp)

theorem is_type_vec {x : QValue} {t : QVecType} (h : q_vec_is_type x t = true) :
    ∃ v, x = .VVector v ∧ v.type = t ∧ q_vec_validate v = true := by
  cases x <;> simp [q_vec_is_type] at h
  exact ⟨_, rfl, h.1, h.2⟩

theorem cmp_str_eq_null_prop {a b : QValue} {negate : Bool}
    {w : QVector} {i : Nat} (hw : q_vec_cmp_str_eq a b negate = .VVector w)
    (hn : (valueNullAt a i || valueNullAt b i) = true) :
    q_vec_is_null_at w i = true := by
  simp only [q_vec_cmp_str_eq, strEqVecScalar] at hw
  split at hw
  · split at hw
    · rename_i h2 o1 o2 va vb hga hgb
      split at hw
      · exact absurd hw (by simp)
      · rename_i hlen
        injection hw with hw
        subst hw
        rw [valueNullAt_eq hga i, valueNullAt_eq hgb i] at hn
        rw [q_vec_is_null_at_mkCmpOut]
        have hleq : va.count = vb.count := not_ne_iff.mp hlen
        rcases Bool.or_eq_true_iff.1 hn with h1 | h1
        · obtain ⟨hh, hlt⟩ := is_null_at_true h1
          simp [hn, hh, hlt]
        · obtain ⟨hh, hlt⟩ := is_null_at_true h1
          have hia : i < va.count := by omega
          simp [hn, hh, hia]
    · exact absurd hw (by simp)
  · split at hw
    · split at hw
      · rename_i h1 h2 o1 va hga
        injection hw with hw
        subst hw
        simp only [Bool.and_eq_true] at h2
        rw [valueNullAt_eq hga i, valueNullAt_of_string h2.2 i,
          Bool.or_false] at hn
        obtain ⟨hh, hlt⟩ := is_null_at_true hn
        rw [q_vec_is_null_at_mkCmpOut]
        simp [hn, hh, hlt]
      · exact absurd hw (by simp)
    · split at hw
      · split at hw
        · rename_i h1 h2 h3 o1 vb hgb
          injection hw with hw
          subst hw
          simp only [Bool.and_eq_true] at h3
          rw [valueNullAt_of_string h3.2 i, Bool.false_or,
            valueNullAt_eq hgb i] at hn
          obtain ⟨hh, hlt⟩ := is_null_at_true hn
          rw [q_vec_is_null_at_mkCmpOut]
          simp [hn, hh, hlt]
        · exact absurd hw (by simp)
      · exact absurd hw (by simp)


theorem cmp_num_dispatch_null_prop {a b : QValue} {opI : Int → Int → Bool}
    {opF : Rat → Rat → Bool} {w : QVector} {i : Nat}
    (hw : q_vec_cmp_num_dispatch a b opI opF = .VVector w)
    (hn : (valueNullAt a i || valueNullAt b i) = true) :
    q_vec_is_null_at w i = true := by
  unfold q_vec_cmp_num_dispatch at hw
  split at hw
  · cases hI : q_vec_cmp_i64_impl a b opI <;> rw [hI] at hw <;> simp only [] at hw
    case VNull => exact cmp_f64_impl_null_prop hw hn
    case VVector v =>
      injection hw with hw
      subst hw
      exact cmp_i64_impl_null_prop hI hn
    all_goals exact absurd hw (by simp)
  · exact cmp_f64_impl_null_prop hw hn

theorem eq_fallback_null_prop {a b : QValue}
    {opF : Rat → Rat → Bool} {opB : Bool → Bool → Bool} {negate : Bool}
    {w : QVector} {i : Nat}
    (hw : q_vec_eq_fallback a b opF opB negate = .VVector w)
    (hn : (valueNullAt a i || valueNullAt b i) = true) :
    q_vec_is_null_at w i = true := by
  unfold q_vec_eq_fallback at hw
  cases hF : q_vec_cmp_f64_impl a b opF <;> rw [hF] at hw <;>
    simp only [] at hw
  case VNull =>
    cases hB : q_vec_cmp_bool_impl a b opB <;> rw [hB] at hw <;>
      simp only [] at hw
    case VNull => exact cmp_str_eq_null_prop hw hn
    case VVector v =>
      injection hw with hw
      subst hw
      exact cmp_bool_impl_null_prop hB hn
    all_goals exact absurd hw (by simp)
  case VVector v =>
    injection hw with hw
    subst hw
    exact cmp_f64_impl_null_prop hF hn
  all_goals exact absurd hw (by simp)

theorem eq_dispatch_null_prop {a b : QValue} {opI : Int → Int → Bool}
    {opF : Rat → Rat → Bool} {opB : Bool → Bool → Bool} {negate : Bool}
    {w : QVector} {i : Nat}
    (hw : q_vec_eq_dispatch a b opI opF opB negate = .VVector w)
    (hn : (valueNullAt a i || valueNullAt b i) = true) :
    q_vec_is_null_at w i = true := by
  unfold q_vec_eq_dispatch at hw
  split at hw
  · cases hI : q_vec_cmp_i64_impl a b opI <;> rw [hI] at hw <;> simp only [] at hw
    case VNull => exact eq_fallback_null_prop hw hn
    case VVector v =>
      injection hw with hw
      subst hw
      exact cmp_i64_impl_null_prop hI hn
    all_goals exact absurd hw (by simp)
  · exact eq_fallback_null_prop hw hn

theorem binary_impl_no_nulls {a b : QValue} {op : Rat → Rat → Rat}
    {w : QVector} (hw : q_vec_binary_impl a b op = .VVector w) :
    w.has_nulls = false := by
  simp only [q_vec_binary_impl] at hw
  repeat' split at hw
  all_goals try (injection hw with hw; rw [← hw])
  all_goals first
    | rfl
    | exact absurd hw (by simp)

theorem binary_i64_impl_no_nulls {a b : QValue} {op : Int → Int → Int}
    {w : QVector} (hw : q_vec_binary_i64_impl a b op = .VVector w) :
    w.has_nulls = false := by
  simp only [q_vec_binary_i64_impl] at hw
  repeat' split at hw
  all_goals try (injection hw with hw; rw [← hw])
  all_goals first
    | rfl
    | exact absurd hw (by simp)

theorem div_i64_no_nulls {a b : QValue} {w : QVector}
    (hw : q_vec_div_i64 a b = .VVector w) : w.has_nulls = false := by
  simp only [q_vec_div_i64] at hw
  repeat' split at hw
  all_goals try (injection hw with hw; rw [← hw])
  all_goals first
    | rfl
    | exact absurd hw (by simp)

/-- C1 amended: null propagation holds for the six comparison kernels — for
any operands and any index, if a vector operand is null at `i` (scalar
operands contribute no nulls) then any vector result is null at `i` — but
the four arithmetic kernels never allocate a null mask at all: their vector
results always report `has_nulls = false`, so input nulls are dropped (and
the payload at such positions is computed from the stored values). -/
theorem claim_C1_amended :
    (∀ (k : VecCmpKind) (a b : QValue) (i : Nat) (w : QVector),
      vecCmpRun k a b = .VVector w →
      (valueNullAt a i || valueNullAt b i) = true →
      q_vec_is_null_at w i = true) ∧
    (∀ (k : VecArithKind) (a b : QValue) (w : QVector),
      vecArithRun k a b = .VVector w →
      w.has_nulls = false ∧ ∀ j, q_vec_is_null_at w j = false) := by
  constructor
  · intro k a b i w hw hn
    cases k
    case lt => exact cmp_num_dispatch_null_prop hw hn
    case lte => exact cmp_num_dispatch_null_prop hw hn
    case gt => exact cmp_num_dispatch_null_prop hw hn
    case gte => exact cmp_num_dispatch_null_prop hw hn
    case eq => exact eq_dispatch_null_prop hw hn
    case neq => exact eq_dispatch_null_prop hw hn
  · intro k a b w hw
    have hnn : w.has_nulls = false := by
      cases k <;> simp only [vecArithRun, q_vec_add, q_vec_sub, q_vec_mul,
        q_vec_div] at hw
      all_goals split at hw
      all_goals first
        | exact binary_impl_no_nulls hw
        | (cases hI : q_vec_binary_i64_impl a b (· + ·) <;> rw [hI] at hw <;>
            simp only [] at hw
           case VNull => exact binary_impl_no_nulls hw
           case VVector v =>
             injection hw with hw
             subst hw
             exact binary_i64_impl_no_nulls hI
           all_goals exact absurd hw (by simp))
        | (cases hI : q_vec_binary_i64_impl a b (· - ·) <;> rw [hI] at hw <;>
            simp only [] at hw
           case VNull => exact binary_impl_no_nulls hw
           case VVector v =>
             injection hw with hw
             subst hw
             exact binary_i64_impl_no_nulls hI
           all_goals exact absurd hw (by simp))
        | (cases hI : q_vec_binary_i64_impl a b (· * ·) <;> rw [hI] at hw <;>
            simp only [] at hw
           case VNull => exact binary_impl_no_nulls hw
           case VVector v =>
             injection hw with hw
             subst hw
             exact binary_i64_impl_no_nulls hI
           all_goals exact absurd hw (by simp))
        | (cases hI : q_vec_div_i64 a b <;> rw [hI] at hw <;>
            simp only [] at hw
           case VNull => exact binary_impl_no_nulls hw
           case VVector v =>
             injection hw with hw
             subst hw
             exact div_i64_no_nulls hI
           all_goals exact absurd hw (by simp))
    refine ⟨hnn, fun j => ?_⟩
    simp [q_vec_is_null_at, hnn]



/-- Witness for C1's amended theorem: `lt` propagates the null at index 0;
`add` on the same operands reports no nulls. -/
theorem claim_C1_amended_witness :
    q_vec_is_null_at (⟨.BOOL, 1, true, [1], .boolv [0]⟩ : QVector) 0 = true ∧
    (mkF64Out [(1 : Rat) + 2]).has_nulls = false := by
  constructor
  · exact claim_C1_amended.1 .lt (.VVector f64VecNull1) (.VVector f64Vec1) 0
      ⟨.BOOL, 1, true, [1], .boolv [0]⟩ (by rfl) (by rfl)
  · exact (claim_C1_amended.2 .add (.VVector f64VecNull1) (.VVector f64Vec1)
      (mkF64Out [(1 : Rat) + 2]) (by rfl)).1


/-! ## C10: reductions always box their result as Float -/

theorem foldl_min_init (t : List Int) : ∀ x : Int, t.foldl min x ≤ x := by
  induction t with
  | nil => simp
  | cons a t ih =>
    intro x
    exact le_trans (ih (min x a)) (min_le_left _ _)

theorem foldl_max_init (t : List Int) : ∀ x : Int, x ≤ t.foldl max x := by
  induction t with
  | nil => simp
  | cons a t ih =>
    intro x
    exact le_trans (le_max_left _ _) (ih (max x a))

theorem foldl_min_mem (t : List Int) : ∀ x : Int, t.foldl min x ∈ x :: t := by
  induction t with
  | nil => simp
  | cons a t ih =>
    intro x
    simp only [List.foldl_cons]
    rcases List.mem_cons.1 (ih (min x a)) with h1 | h1
    · rcases min_choice x a with hc | hc <;> rw [hc] at h1 ⊢ <;> simp [h1]
    · simp [List.mem_cons, h1]

theorem foldl_min_le (t : List Int) :
    ∀ x y : Int, y ∈ x :: t → t.foldl min x ≤ y := by
  induction t with
  | nil =>
    intro x y hy
    simp only [List.mem_singleton] at hy
    subst hy
    simp
  | cons a t ih =>
    intro x y hy
    simp only [List.foldl_cons]
    rcases List.mem_cons.1 hy with h1 | h1
    · exact le_trans (foldl_min_init t (min x a))
        (by rw [h1]; exact min_le_left _ _)
    · rcases List.mem_cons.1 h1 with h2 | h2
      · exact le_trans (foldl_min_init t (min x a))
          (by rw [h2]; exact min_le_right _ _)
      · exact ih (min x a) y (List.mem_cons_of_mem _ h2)

theorem foldl_max_mem (t : List Int) : ∀ x : Int, t.foldl max x ∈ x :: t := by
  induction t with
  | nil => simp
  | cons a t ih =>
    intro x
    simp only [List.foldl_cons]
    rcases List.mem_cons.1 (ih (max x a)) with h1 | h1
    · rcases max_choice x a with hc | hc <;> rw [hc] at h1 ⊢ <;> simp [h1]
    · simp [List.mem_cons, h1]

theorem foldl_max_ge (t : List Int) :
    ∀ x y : Int, y ∈ x :: t → y ≤ t.foldl max x := by
  induction t with
  | nil =>
    intro x y hy
    simp only [List.mem_singleton] at hy
    subst hy
    simp
  | cons a t ih =>
    intro x y hy
    simp only [List.foldl_cons]
    rcases List.mem_cons.1 hy with h1 | h1
    · exact le_trans (by rw [h1]; exact le_max_left x a)
        (foldl_max_init t (max x a))
    · rcases List.mem_cons.1 h1 with h2 | h2
      · exact le_trans (by rw [h2]; exact le_max_right x a)
          (foldl_max_init t (max x a))
      · exact ih (max x a) y (List.mem_cons_of_mem _ h2)

theorem foldl_add_cast (xs : List Int) : ∀ acc : Rat,
    xs.foldl (fun (acc : Rat) (x : Int) => acc + (x : Rat)) acc =
      acc + (xs.map (fun x : Int => (x : Rat))).sum := by
  induction xs with
  | nil => simp
  | cons a t ih =>
    intro acc
    simp only [List.foldl_cons, List.map_cons, List.sum_cons]
    rw [ih]
    ring

theorem foldl_bool_count (xs : List Nat) : ∀ acc : Rat,
    xs.foldl (fun (acc : Rat) (x : Nat) => acc + if x != 0 then 1 else 0) acc =
      acc + ((xs.filter (fun x => x != 0)).length : Rat) := by
  induction xs with
  | nil => simp
  | cons a t ih =>
    intro acc
    simp only [List.foldl_cons]
    rw [ih]
    by_cases ha : a = 0 <;> simp [ha, List.filter_cons] <;> push_cast <;> ring

/-- C10: reductions box as Float, never Int: on a valid non-empty I64 vector,
`min`/`max` return the integer minimum/maximum cast to double (boxed
`VFloat`); on a valid I64 vector `sum` returns the double-precision
accumulation of the elements; on a valid BOOL vector `sum` counts the true
elements as 1.0 each.  No reduction result carries the `Int` tag. -/
theorem claim_C10_reductions_box_float :
    (∀ (va : QVector) (x : Int) (t : List Int),
      q_vec_is_type (.VVector va) .I64 = true → va.storage = .i64 (x :: t) →
      q_vec_min (.VVector va) = .VFloat ((t.foldl min x : Int) : Rat) ∧
      q_vec_max (.VVector va) = .VFloat ((t.foldl max x : Int) : Rat) ∧
      t.foldl min x ∈ x :: t ∧ (∀ y ∈ x :: t, t.foldl min x ≤ y) ∧
      t.foldl max x ∈ x :: t ∧ (∀ y ∈ x :: t, y ≤ t.foldl max x)) ∧
    (∀ (va : QVector) (xs : List Int),
      q_vec_is_type (.VVector va) .I64 = true → va.storage = .i64 xs →
      q_vec_sum (.VVector va) =
        .VFloat ((xs.map (fun x : Int => (x : Rat))).sum)) ∧
    (∀ (vb : QVector) (xs : List Nat),
      q_vec_is_type (.VVector vb) .BOOL = true → vb.storage = .boolv xs →
      q_vec_sum (.VVector vb) =
        .VFloat (((xs.filter (fun x => x != 0)).length : Rat))) := by
  refine ⟨fun va x t hva hs => ?_, fun va xs hva hs => ?_, fun vb xs hvb hs => ?_⟩
  · obtain ⟨xs2, hs2, hi⟩ := i64_const_some_of_valid hva
    rw [hs] at hs2
    injection hs2 with hs2
    rw [← hs2] at hi
    refine ⟨by simp [q_vec_min, hi], by simp [q_vec_max, hi],
      foldl_min_mem t x, foldl_min_le t x, foldl_max_mem t x, foldl_max_ge t x⟩
  · obtain ⟨xs2, hs2, hi⟩ := i64_const_some_of_valid hva
    rw [hs] at hs2
    injection hs2 with hs2
    rw [← hs2] at hi
    simp only [q_vec_sum, hi]
    rw [foldl_add_cast]
    norm_num
  · have hb : q_vec_bool_const (.VVector vb) = some xs := by
      have ht : vb.type = .BOOL := by
        unfold q_vec_is_type at hvb
        simp only [Bool.and_eq_true, decide_eq_true_eq] at hvb
        exact hvb.1
      have hv : q_vec_validate vb = true := by
        unfold q_vec_is_type at hvb
        simp only [Bool.and_eq_true, decide_eq_true_eq] at hvb
        exact hvb.2
      simp [q_vec_bool_const, q_vec_is_type, ht, hv, getVec, hs,
        QStorage.boolList]
    have hi64 : q_vec_i64_const (.VVector vb) = none := by
      have ht : vb.type = .BOOL := by
        unfold q_vec_is_type at hvb
        simp only [Bool.and_eq_true, decide_eq_true_eq] at hvb
        exact hvb.1
      simp [q_vec_i64_const, q_vec_is_type, ht]
    simp only [q_vec_sum, hb, hi64]
    rw [foldl_bool_count]
    norm_num

/-- A valid three-element I64 vector used by the C10 witness. -/
def i64Vec3 : QVector := ⟨.I64, 3, false, [], .i64 [5, 2, 9]⟩

/-- A valid three-element BOOL vector used by the C10 witness. -/
def boolVec3 : QVector := ⟨.BOOL, 3, false, [], .boolv [1, 0, 1]⟩

/-- Witness for C10 at `[5,2,9]` (min 2.0, max 9.0, sum 16.0) and
`[true,false,true]` (sum 2.0). -/
theorem claim_C10_reductions_box_float_witness :
    (q_vec_min (.VVector i64Vec3) = .VFloat (((2 : Int) : Rat)) ∧
     q_vec_max (.VVector i64Vec3) = .VFloat (((9 : Int) : Rat))) ∧
    q_vec_sum (.VVector i64Vec3) =
      .VFloat (([(5 : Int), 2, 9].map (fun x : Int => (x : Rat))).sum) ∧
    q_vec_sum (.VVector boolVec3) =
      .VFloat ((([(1 : Nat), 0, 1].filter (fun x => x != 0)).length : Rat)) := by
  have h1 := claim_C10_reductions_box_float.1 i64Vec3 5 [2, 9] (by rfl) rfl
  have h2 := claim_C10_reductions_box_float.2.1 i64Vec3 [5, 2, 9] (by rfl) rfl
  have h3 := claim_C10_reductions_box_float.2.2 boolVec3 [1, 0, 1] (by rfl) rfl
  exact ⟨⟨by rw [h1.1]; norm_num, by rw [h1.2.1]; norm_num⟩, h2, h3⟩

/-! ## String codec lemmas -/

theorem encodeOffsetsFrom_length (vals : List QStr) :
    ∀ total : Nat, (encodeOffsetsFrom total vals).length = vals.length := by
  induction vals with
  | nil => intro total; rfl
  | cons s rest ih =>
    intro total
    simp [encodeOffsetsFrom, ih]

theorem encode_offsets_getD (vals : List QStr) :
    ∀ (total i : Nat), i ≤ vals.length →
      (total :: encodeOffsetsFrom total vals).getD i 0 =
        total + ((vals.map List.length).take i).sum := by
  induction vals with
  | nil =>
    intro total i hi
    have : i = 0 := Nat.le_zero.mp hi
    subst this
    simp
  | cons s rest ih =>
    intro total i hi
    cases i with
    | zero => simp
    | succ j =>
      have hj : j ≤ rest.length := by simpa using hi
      simp only [encodeOffsetsFrom, List.getD_cons_succ]
      rw [ih (total + s.length) j hj]
      simp [Nat.add_assoc]

theorem decode_encode_elem (vals : List QStr) (i : Nat) (hi : i < vals.length) :
    byteSlice (q_vec_encode_strings vals).2
      ((q_vec_encode_strings vals).1.getD i 0)
      ((q_vec_encode_strings vals).1.getD (i + 1) 0) = vals.getD i [] := by
  have h1 := encode_offsets_getD vals 0 i (le_of_lt hi)
  have h2 := encode_offsets_getD vals 0 (i + 1) hi
  simp only [q_vec_encode_strings] at h1 h2 ⊢
  rw [h1, h2, byteSlice]
  simp only [Nat.zero_add]
  rw [← List.drop_take ((List.take (i + 1) (List.map List.length vals)).sum)
    ((List.take i (List.map List.length vals)).sum) vals.flatten,
    List.drop_take_succ_flatten_eq_getElem vals i hi,
    List.getD_eq_getElem?_getD, List.getElem?_eq_getElem hi]
  rfl


theorem encode_offsets_getLast? (vals : List QStr) :
    ∀ total, (total :: encodeOffsetsFrom total vals).getLast? =
      some (total + (vals.map List.length).sum) := by
  induction vals with
  | nil => intro total; simp [encodeOffsetsFrom]
  | cons s rest ih =>
    intro total
    have h := ih (total + s.length)
    simp only [encodeOffsetsFrom, List.getLast?_cons_cons, h, List.map_cons,
      List.sum_cons, Option.some.injEq]
    omega

theorem encode_offsets_nondecr (vals : List QStr) :
    ∀ total, nondecreasing (total :: encodeOffsetsFrom total vals) = true := by
  induction vals with
  | nil => intro total; rfl
  | cons s rest ih =>
    intro total
    have h := ih (total + s.length)
    simp [encodeOffsetsFrom, nondecreasing, h]

/-- Any vector assembled from `q_vec_encode_strings` output with a
`count`-length mask (or no mask) validates. -/
theorem validate_encoded_str (vals : List QStr) (hn : Bool) (nulls : List Nat)
    (hnulls : if hn then nulls.length = vals.length else nulls = []) :
    q_vec_validate ⟨.STR, vals.length, hn, nulls,
      .str (q_vec_encode_strings vals).1 (q_vec_encode_strings vals).2⟩ = true := by
  have hlast := encode_offsets_getLast? vals 0
  have hnd := encode_offsets_nondecr vals 0
  have hlen := encodeOffsetsFrom_length vals 0
  simp only [q_vec_validate, q_vec_storage_matches_type, q_vec_encode_strings]
  simp [hlen, List.getLastD_eq_getLast?, hlast, hnd, List.length_flatten]
  cases hn with
  | false => simp_all
  | true => simp_all


/-! ## C7: fillna -/

/-- The boxed value that `q_fillna` writes into null positions, per dtype. -/
def fillBoxed (t : QVecType) (s : QValue) : QValue :=
  match t with
  | .F64 => .VFloat (q_to_double_scalar s)
  | .I64 => .VInt (q_to_i64_scalar s)
  | .BOOL => .VBool (scalarBoolRead s)
  | .STR => .VString (string_val_bits s)

/-- A valid F64 vector that carries a mask with no null entries. -/
def f64VecMaskZero : QVector := ⟨.F64, 1, true, [0], .f64 [5]⟩

/-- A valid empty F64 vector whose `has_nulls` flag is set (its mask is
empty, which `q_vec_validate` accepts for `count = 0`). -/
def f64VecEmptyFlag : QVector := ⟨.F64, 0, true, [], .f64 []⟩

/-- C7 counterexample: `f64VecMaskZero` has no null element, yet
`fillna` is not a no-op on it — it drops the mask (`has_nulls` flips to
false), so the result is not structurally identical; and on the valid empty
vector with `has_nulls = true`, `fillna` with a well-typed scalar returns it
unchanged still reporting `has_nulls = true`, not false. -/
theorem claim_C7_counterexample :
    q_vec_validate f64VecMaskZero = true ∧
    (∀ j, q_vec_is_null_at f64VecMaskZero j = false) ∧
    q_fillna (.VVector f64VecMaskZero) (.VInt 9) =
      .VVector ⟨.F64, 1, false, [], .f64 [5]⟩ ∧
    (⟨.F64, 1, false, [], .f64 [5]⟩ : QVector) ≠ f64VecMaskZero ∧
    q_vec_validate f64VecEmptyFlag = true ∧
    f64VecEmptyFlag.has_nulls = true ∧
    fillTypeChecks f64VecEmptyFlag.type (.VInt 9) = true ∧
    q_fillna (.VVector f64VecEmptyFlag) (.VInt 9) = .VVector f64VecEmptyFlag := by
  refine ⟨rfl, fun j => ?_, rfl, by decide, rfl, rfl, rfl, rfl⟩
  match j with
  | 0 => rfl
  | n + 1 => simp [q_vec_is_null_at, f64VecMaskZero]

/-- C7 amended: `fillna` on a valid vector returns it unchanged when
`has_nulls` is false or the mask is empty (in particular for the empty
vector, even when it still reports `has_nulls = true`); when `has_nulls` is
true and the mask is non-empty (even if no mask entry is actually set), a
type-correct scalar makes `fillna` overwrite exactly the masked elements and
drop the mask entirely — the result reports `has_nulls = false` with an
empty mask — and a scalar failing the per-dtype type check yields the `Null`
sentinel. -/
theorem claim_C7_amended :
    ∀ (v : QVector) (s : QValue), q_vec_validate v = true →
      ((v.has_nulls = false ∨ v.nulls = []) →
        q_fillna (.VVector v) s = .VVector v) ∧
      (v.has_nulls = true → v.nulls ≠ [] →
        (fillTypeChecks v.type s = true →
          ∃ w, q_fillna (.VVector v) s = .VVector w ∧
            w.type = v.type ∧ w.count = v.count ∧
            w.has_nulls = false ∧ w.nulls = [] ∧
            q_vec_validate w = true ∧
            ∀ i, i < v.count →
              q_vec_elem w i = (if q_vec_is_null_at v i then fillBoxed v.type s
                                else q_vec_elem v i)) ∧
        (fillTypeChecks v.type s = false →
          q_fillna (.VVector v) s = .VNull)) := by
  intro v s hval
  constructor
  · intro h
    rcases h with h | h <;>
      simp [q_fillna, hval, h, List.isEmpty_iff]
  · intro hhn hne
    have hmlen : v.nulls.length = v.count := validate_nulls_len hval hhn
    have hnotempty : v.nulls.isEmpty = false := by
      simpa [List.isEmpty_iff] using hne
    constructor
    · intro htc
      obtain ⟨t0, c0, hn0, nl0, st0⟩ := v
      simp only at hhn hne hmlen hnotempty htc hval ⊢
      subst hhn
      cases t0
      case F64 =>
        simp only [fillTypeChecks] at htc
        obtain ⟨xs, hs⟩ := storage_f64_of_type rfl hval
        simp only at hs
        subst hs
        have hxlen : xs.length = c0 := validate_f64_len rfl hval
        refine ⟨⟨.F64, c0, false, [], .f64 ((List.range c0).map
          (fun i => if nl0.getD i 0 != 0 then q_to_double_scalar s
                    else xs.getD i 0))⟩,
          by simp [q_fillna, hval, hnotempty, htc], rfl, rfl, rfl, rfl, ?_, ?_⟩
        · simp [q_vec_validate, q_vec_storage_matches_type]
        · intro i hi
          have hilen : i < nl0.length := by omega
          have hg : nl0.getD i 0 = nl0[i] := by
            rw [List.getD_eq_getElem?_getD, List.getElem?_eq_getElem hilen]
            rfl
          by_cases hb : nl0[i] = 0 <;>
            simp [q_vec_elem, q_vec_is_null_at, getD_range_map, hi, hg, hb,
              hmlen, fillBoxed, Nat.not_le.2 hi]
      case I64 =>
        simp only [fillTypeChecks] at htc
        obtain ⟨xs, hs⟩ := storage_i64_of_type rfl hval
        simp only at hs
        subst hs
        have hxlen : xs.length = c0 := validate_i64_len rfl hval
        refine ⟨⟨.I64, c0, false, [], .i64 ((List.range c0).map
          (fun i => if nl0.getD i 0 != 0 then q_to_i64_scalar s
                    else xs.getD i 0))⟩,
          by simp [q_fillna, hval, hnotempty, htc], rfl, rfl, rfl, rfl, ?_, ?_⟩
        · simp [q_vec_validate, q_vec_storage_matches_type]
        · intro i hi
          have hilen : i < nl0.length := by omega
          have hg : nl0.getD i 0 = nl0[i] := by
            rw [List.getD_eq_getElem?_getD, List.getElem?_eq_getElem hilen]
            rfl
          by_cases hb : nl0[i] = 0 <;>
            simp [q_vec_elem, q_vec_is_null_at, getD_range_map, hi, hg, hb,
              hmlen, fillBoxed, Nat.not_le.2 hi]
      case BOOL =>
        simp only [fillTypeChecks] at htc
        obtain ⟨xs, hs⟩ := storage_bool_of_type rfl hval
        simp only at hs
        subst hs
        have hxlen : xs.length = c0 := validate_bool_len rfl hval
        refine ⟨⟨.BOOL, c0, false, [], .boolv ((List.range c0).map
          (fun i => if nl0.getD i 0 != 0 then (if scalarBoolRead s then 1 else 0)
                    else xs.getD i 0))⟩,
          by simp [q_fillna, hval, hnotempty, htc], rfl, rfl, rfl, rfl, ?_, ?_⟩
        · simp [q_vec_validate, q_vec_storage_matches_type]
        · intro i hi
          have hilen : i < nl0.length := by omega
          have hg : nl0.getD i 0 = nl0[i] := by
            rw [List.getD_eq_getElem?_getD, List.getElem?_eq_getElem hilen]
            rfl
          by_cases hb : nl0[i] = 0 <;>
            simp [q_vec_elem, q_vec_is_null_at, getD_range_map, hi, hg, hb,
              hmlen, fillBoxed, Nat.not_le.2 hi] <;>
            (try (cases hsb : scalarBoolRead s <;> simp [hsb]))
      case STR =>
        simp only [fillTypeChecks] at htc
        obtain ⟨offsets, bytes, hs⟩ := storage_str_of_type rfl hval
        simp only at hs
        subst hs
        cases s <;> simp at htc
        rename_i fill
        refine ?_
        set decoded := q_vec_decode_strings offsets bytes c0 with hdec
        set replaced := (List.range c0).map
          (fun i => if nl0.getD i 0 != 0 then fill else decoded.getD i []) with hrep
        have hreplen : replaced.length = c0 := by simp [hrep]
        have hvw := validate_encoded_str replaced false [] (by simp)
        rw [hreplen] at hvw
        refine ⟨⟨.STR, c0, false, [], .str (q_vec_encode_strings replaced).1
            (q_vec_encode_strings replaced).2⟩,
          by simp [q_fillna, hval, hnotempty, hrep, hdec], rfl, rfl, rfl, rfl,
          hvw, ?_⟩
        intro i hi
        have hdei := decode_encode_elem replaced i (by omega)
        have hilen : i < nl0.length := by omega
        have hg : nl0.getD i 0 = nl0[i] := by
          rw [List.getD_eq_getElem?_getD, List.getElem?_eq_getElem hilen]
          rfl
        have helemw : q_vec_elem (⟨.STR, c0, false, [],
            .str (q_vec_encode_strings replaced).1
              (q_vec_encode_strings replaced).2⟩ : QVector) i =
            .VString (replaced.getD i []) := by
          rw [← hdei]
          simp [q_vec_elem]
        rw [helemw]
        by_cases hb : nl0[i] = 0 <;>
          simp [q_vec_elem, q_vec_is_null_at, hi, hg, hb, hmlen, fillBoxed,
            Nat.not_le.2 hi, hrep, getD_range_map, hdec,
            q_vec_decode_strings, string_val_bits]
    · intro htc
      cases ht : v.type <;> rw [ht] at htc <;>
        simp only [fillTypeChecks] at htc <;>
        simp [q_fillna, hval, hhn, hnotempty, ht, htc]
      cases s <;> simp_all

/-- A valid F64 vector with one null element, for the C7 witness. -/
def f64VecWithNull : QVector := ⟨.F64, 2, true, [1, 0], .f64 [7, 3]⟩

/-- Witness for C7's amended theorem: filling `[null, 3.0]` with `Int 9`
drops the mask. -/
theorem claim_C7_amended_witness :
    ∃ w, q_fillna (.VVector f64VecWithNull) (.VInt 9) = .VVector w ∧
      w.has_nulls = false ∧ w.nulls = [] := by
  obtain ⟨w, hw, -, -, hhn, hnl, -, -⟩ :=
    ((claim_C7_amended f64VecWithNull (.VInt 9) (by rfl)).2 (by rfl)
      (by decide)).1 (by rfl)
  exact ⟨w, hw, hhn, hnl⟩


/-! ## C6: categorical round-trip (spec-modelled) -/

theorem dictFind_getD {dict : List QStr} {s : QStr} {k : Nat}
    (h : dictFind dict s = some k) : k < dict.length ∧ dict.getD k [] = s := by
  induction dict generalizing k with
  | nil => simp [dictFind] at h
  | cons t rest ih =>
    simp only [dictFind] at h
    split at h
    · rename_i ht
      injection h with h
      subst h
      simpa using ht
    · cases hf : dictFind rest s <;> rw [hf] at h <;> simp at h
      obtain ⟨hk, hv⟩ := ih hf
      subst h
      refine ⟨by simpa using Nat.succ_lt_succ hk, ?_⟩
      rw [List.getD_cons_succ]
      exact hv

theorem cat_step_split (st : List QStr × List Int) (x : QValue) :
    (to_categorical_step st x).1 = (to_categorical_step (st.1, []) x).1 ∧
    (to_categorical_step st x).2 =
      st.2 ++ (to_categorical_step (st.1, []) x).2 := by
  cases x <;> simp [to_categorical_step]

theorem cat_fold_split (items : List QValue) :
    ∀ (dict : List QStr) (codes : List Int),
      items.foldl to_categorical_step (dict, codes) =
        ((items.foldl to_categorical_step (dict, [])).1,
          codes ++ (items.foldl to_categorical_step (dict, [])).2) := by
  induction items with
  | nil => intro dict codes; simp
  | cons x rest ih =>
    intro dict codes
    simp only [List.foldl_cons]
    obtain ⟨h1, h2⟩ := cat_step_split (dict, codes) x
    obtain ⟨h1b, h2b⟩ := cat_step_split (dict, []) x
    rw [show to_categorical_step (dict, codes) x =
      ((to_categorical_step (dict, []) x).1,
        codes ++ (to_categorical_step (dict, []) x).2) from
      Prod.ext (by simpa using h1) (by simpa using h2)]
    rw [ih (to_categorical_step (dict, []) x).1
      (codes ++ (to_categorical_step (dict, []) x).2)]
    rw [ih (to_categorical_step (dict, []) x).1
      (to_categorical_step (dict, []) x).2]
    simp

theorem cat_roundtrip_gen : ∀ items : List QValue,
    (∀ x ∈ items, x = .VNull ∨ ∃ t, x = .VString t) →
    ∀ dict : List QStr,
      (∃ tail, (items.foldl to_categorical_step (dict, [])).1 = dict ++ tail) ∧
      (∀ dictF : List QStr,
        (∃ tail2, dictF = (items.foldl to_categorical_step (dict, [])).1 ++ tail2) →
        from_categorical dictF (items.foldl to_categorical_step (dict, [])).2 =
          items) := by
  intro items
  induction items with
  | nil =>
    intro hok dict
    exact ⟨⟨[], by simp⟩, fun dictF _ => by simp [from_categorical]⟩
  | cons x rest ih =>
    intro hok dict
    have hokx := hok x (List.mem_cons_self _ _)
    have ihr := ih (fun y hy => hok y (List.mem_cons_of_mem _ hy))
    simp only [List.foldl_cons]
    rcases hstep : to_categorical_step (dict, []) x with ⟨d1, c1⟩
    rw [cat_fold_split rest d1 c1]
    obtain ⟨⟨tR, hdR⟩, hdecR⟩ := ihr d1
    have hsplit : (d1 = dict ∧ c1 = [(-1 : Int)] ∧ x = .VNull) ∨
        (∃ s k, x = .VString s ∧ dictFind dict s = some k ∧ d1 = dict ∧
          c1 = [(k : Int)]) ∨
        (∃ s, x = .VString s ∧ dictFind dict s = none ∧ d1 = dict ++ [s] ∧
          c1 = [(dict.length : Int)]) := by
      rcases hokx with hx | ⟨t, hx⟩ <;> subst hx
      · simp only [to_categorical_step] at hstep
        injection hstep with h1 h2
        exact Or.inl ⟨h1.symm, h2.symm, rfl⟩
      · simp only [to_categorical_step, string_val_bits] at hstep
        cases hf : dictFind dict t <;>
          simp only [cat_code, hf] at hstep <;> injection hstep with h1 h2
        · exact Or.inr (Or.inr ⟨t, rfl, hf, h1.symm, h2.symm⟩)
        · exact Or.inr (Or.inl ⟨t, _, rfl, hf, h1.symm, h2.symm⟩)
    constructor
    · rcases hsplit with ⟨h1, -, -⟩ | ⟨s, k, -, -, h1, -⟩ | ⟨s, -, -, h1, -⟩ <;>
        subst h1
      · exact ⟨tR, hdR⟩
      · exact ⟨tR, hdR⟩
      · exact ⟨[s] ++ tR, by simpa using hdR⟩
    · intro dictF ⟨t2, ht2⟩
      have hrest : from_categorical dictF
          (rest.foldl to_categorical_step (d1, [])).2 = rest :=
        hdecR dictF ⟨t2, ht2⟩
      have hdictF : dictF = d1 ++ (tR ++ t2) := by
        rw [ht2, hdR, List.append_assoc]
      simp only [from_categorical, List.map_append] at hrest ⊢
      rw [hrest]
      rcases hsplit with ⟨h1, h2, h3⟩ | ⟨s, k, h3, hf, h1, h2⟩ |
          ⟨s, h3, hf, h1, h2⟩ <;> subst h1 <;> subst h2 <;> subst h3
      · simp [from_categorical]
      · obtain ⟨hk, hv⟩ := dictFind_getD hf
        have hne : ¬((k : Int) = -1) := by omega
        have htn : ((k : Int).toNat) = k := by simp
        rw [List.getD_eq_getElem?_getD] at hv
        simp only [List.map_cons, List.map_nil, if_neg hne, htn, hdictF,
          List.singleton_append]
        rw [List.getD_eq_getElem?_getD, List.getElem?_append_left hk, hv]
      · have hne : ¬((dict.length : Int) = -1) := by omega
        have htn : ((dict.length : Int).toNat) = dict.length := by simp
        have hget : (dict ++ s :: (tR ++ t2)).getD dict.length [] = s := by
          have h := List.getD_append_right dict (s :: (tR ++ t2))
            ([] : QStr) dict.length (le_refl _)
          simpa using h
        simp only [List.map_cons, List.map_nil, if_neg hne, htn, hdictF,
          List.append_assoc, List.singleton_append, List.cons_append,
          List.nil_append]
        rw [hget]

/-- C6 (spec-modelled): for every list whose elements are strings or `Null`,
`from_categorical (to_categorical xs)` reproduces the list element-wise
(string values reproduced, `Null` elements reproduced as `Null`). -/
theorem claim_C6_categorical_roundtrip :
    ∀ items : List QValue, (∀ x ∈ items, x = .VNull ∨ ∃ t, x = .VString t) →
      from_categorical (to_categorical items).1 (to_categorical items).2 =
        items := by
  intro items hok
  obtain ⟨hext, hdec⟩ := cat_roundtrip_gen items hok []
  exact hdec (to_categorical items).1 ⟨[], by simp [to_categorical]⟩

/-- The spec's own categorical example: `["a","b","a", null]`. -/
def catItems : List QValue :=
  [.VString ['a'], .VString ['b'], .VString ['a'], .VNull]

/-- Witness for C6 at `["a","b","a", null]`. -/
theorem claim_C6_categorical_roundtrip_witness :
    from_categorical (to_categorical catItems).1 (to_categorical catItems).2 =
      catItems :=
  claim_C6_categorical_roundtrip catItems (by
    intro x hx
    simp only [catItems, List.mem_cons, List.not_mem_nil, or_false] at hx
    rcases hx with rfl | rfl | rfl | rfl
    · exact Or.inr ⟨_, rfl⟩
    · exact Or.inr ⟨_, rfl⟩
    · exact Or.inr ⟨_, rfl⟩
    · exact Or.inl rfl)



/-! ## C5: every public vector operation preserves `q_vec_validate` -/

/-- Every vector the operation returns validates. -/
def resultValid (q : QValue) : Prop :=
  ∀ w : QVector, q = .VVector w → q_vec_validate w = true

theorem validate_fields {v : QVector} (hv : q_vec_validate v = true) :
    (v.has_nulls = true → v.nulls.length = v.count) ∧
    (v.has_nulls = false → v.nulls = []) := by
  unfold q_vec_validate at hv
  simp only [Bool.and_eq_true] at hv
  have h := hv.2
  constructor
  · intro hn
    rw [hn] at h
    simpa using h
  · intro hn
    rw [hn] at h
    simpa [List.isEmpty_iff] using h

theorem push_validate {v : QVector} (x : QValue)
    (hv : q_vec_validate v = true) : resultValid (q_vec_push (.VVector v) x) := by
  intro w hw
  simp only [q_vec_push] at hw
  split at hw
  · exact absurd hw (by simp)
  split at hw
  · exact absurd hw (by simp)
  rename_i ht hnum
  split at hw
  · rename_i xs hs
    injection hw with hw
    subst hw
    simp only [Bool.not_eq_true', decide_eq_false_iff_not, Decidable.not_not] at ht
    have hlen : xs.length = v.count := validate_f64_len hs hv
    obtain ⟨hm1, hm0⟩ := validate_fields hv
    cases hn : v.has_nulls
    case false =>
      simp [q_vec_validate, q_vec_storage_matches_type, ht, hn, hm0 hn, hlen,
        List.isEmpty_iff]
    case true =>
      simp [q_vec_validate, q_vec_storage_matches_type, ht, hn, hm1 hn, hlen,
        List.isEmpty_iff]
  · exact absurd hw (by simp)

theorem push_i64_validate {v : QVector} (x : QValue)
    (hv : q_vec_validate v = true) :
    resultValid (q_vec_push_i64 (.VVector v) x) := by
  intro w hw
  simp only [q_vec_push_i64] at hw
  split at hw
  · exact absurd hw (by simp)
  split at hw
  · exact absurd hw (by simp)
  rename_i ht hnum
  split at hw
  · rename_i xs hs
    injection hw with hw
    subst hw
    simp only [Bool.not_eq_true', decide_eq_false_iff_not, Decidable.not_not] at ht
    have hlen : xs.length = v.count := validate_i64_len hs hv
    obtain ⟨hm1, hm0⟩ := validate_fields hv
    cases hn : v.has_nulls
    case false =>
      simp [q_vec_validate, q_vec_storage_matches_type, ht, hn, hm0 hn, hlen,
        List.isEmpty_iff]
    case true =>
      simp [q_vec_validate, q_vec_storage_matches_type, ht, hn, hm1 hn, hlen,
        List.isEmpty_iff]
  · exact absurd hw (by simp)

theorem push_bool_validate {v : QVector} (x : QValue)
    (hv : q_vec_validate v = true) :
    resultValid (q_vec_push_bool (.VVector v) x) := by
  intro w hw
  simp only [q_vec_push_bool] at hw
  split at hw
  · exact absurd hw (by simp)
  split at hw
  · exact absurd hw (by simp)
  rename_i ht hnum
  split at hw
  · rename_i xs hs
    injection hw with hw
    subst hw
    simp only [Bool.not_eq_true', decide_eq_false_iff_not, Decidable.not_not] at ht
    have hlen : xs.length = v.count := validate_bool_len hs hv
    obtain ⟨hm1, hm0⟩ := validate_fields hv
    cases hn : v.has_nulls
    case false =>
      simp [q_vec_validate, q_vec_storage_matches_type, ht, hn, hm0 hn, hlen,
        List.isEmpty_iff]
    case true =>
      simp [q_vec_validate, q_vec_storage_matches_type, ht, hn, hm1 hn, hlen,
        List.isEmpty_iff]
  · exact absurd hw (by simp)

theorem set_null_at_validate {v : QVector} {i : Nat} {b : Bool} {w : QVector}
    (hv : q_vec_validate v = true)
    (hw : q_vec_set_null_at (.VVector v) i b = some w) :
    q_vec_validate w = true := by
  obtain ⟨t0, c0, hn0, nl0, st0⟩ := v
  simp only [q_vec_set_null_at] at hw
  split at hw
  · exact absurd hw (by simp)
  rename_i hi
  injection hw with hw
  subst hw
  obtain ⟨hm1, hm0⟩ := validate_fields hv
  simp only at hm1 hm0
  simp only [q_vec_validate, Bool.and_eq_true] at hv
  obtain ⟨⟨hA, hB⟩, hC⟩ := hv
  cases hn0
  case false =>
    have hnl : nl0 = [] := hm0 rfl
    subst hnl
    simp only [q_vec_ensure_null_mask]
    simp only [q_vec_validate, Bool.and_eq_true]
    refine ⟨⟨hA, hB⟩, ?_⟩
    simp [List.length_set]
  case true =>
    have hnl : nl0.length = c0 := hm1 rfl
    simp only [q_vec_ensure_null_mask]
    simp only [q_vec_validate, Bool.and_eq_true]
    refine ⟨⟨hA, hB⟩, ?_⟩
    simp [List.length_set, hnl]


theorem clone_validate (x : QValue) : resultValid (q_vec_clone x) := by
  intro w hw
  simp only [q_vec_clone] at hw
  split at hw
  · rename_i v
    split at hw
    · rename_i hval
      injection hw with hw
      subst hw
      exact hval
    · exact absurd hw (by simp)
  · exact absurd hw (by simp)

theorem fillna_validate (x s : QValue) : resultValid (q_fillna x s) := by
  intro w hw
  simp only [q_fillna] at hw
  split at hw
  case h_2 => exact absurd hw (by simp)
  rename_i v
  obtain ⟨t0, c0, hn0, nl0, st0⟩ := v
  split at hw
  · exact absurd hw (by simp)
  rename_i hval
  simp only [Bool.not_eq_true', Bool.not_eq_false] at hval
  split at hw
  · injection hw with hw
    subst hw
    exact hval
  obtain ⟨hm1, hm0⟩ := validate_fields hval
  simp only at hm1 hm0 ⊢
  split at hw
  case h_1 htype =>
    simp only at htype
    subst htype
    split at hw
    · exact absurd hw (by simp)
    split at hw
    case h_1 xs hs =>
      simp only at hs
      subst hs
      injection hw with hw
      subst hw
      simp [q_vec_validate, q_vec_storage_matches_type]
    case h_2 => exact absurd hw (by simp)
  case h_2 htype =>
    simp only at htype
    subst htype
    split at hw
    · exact absurd hw (by simp)
    split at hw
    case h_1 xs hs =>
      simp only at hs
      subst hs
      injection hw with hw
      subst hw
      simp [q_vec_validate, q_vec_storage_matches_type]
    case h_2 => exact absurd hw (by simp)
  case h_3 htype =>
    simp only at htype
    subst htype
    split at hw
    · exact absurd hw (by simp)
    split at hw
    case h_1 xs hs =>
      simp only at hs
      subst hs
      injection hw with hw
      subst hw
      simp [q_vec_validate, q_vec_storage_matches_type]
    case h_2 => exact absurd hw (by simp)
  case h_4 htype =>
    simp only at htype
    subst htype
    split at hw
    case h_2 => exact absurd hw (by simp)
    rename_i fill
    split at hw
    case h_2 => exact absurd hw (by simp)
    rename_i offsets bytes hs
    simp only at hs
    subst hs
    injection hw with hw
    subst hw
    have hv2 := validate_encoded_str ((List.range c0).map
      (fun i => if nl0.getD i 0 != 0 then fill
        else (q_vec_decode_strings offsets bytes c0).getD i [])) false []
      (by simp)
    simpa using hv2

theorem astype_validate (x d : QValue) : resultValid (q_astype x d) := by
  intro w hw
  simp only [q_astype] at hw
  split at hw
  case h_2 => exact absurd hw (by simp)
  rename_i v
  split at hw
  · exact absurd hw (by simp)
  rename_i hval
  simp only [Bool.not_eq_true', Bool.not_eq_false] at hval
  obtain ⟨hm1, hm0⟩ := validate_fields hval
  split at hw
  case h_2 => exact absurd hw (by simp)
  rename_i sd
  obtain ⟨t0, c0, hn0, nl0, st0⟩ := v
  simp only at hm1 hm0
  split at hw
  · -- target f64
    split at hw
    · exact clone_validate _ w hw
    rename_i ht
    split at hw
    case h_1 xs hs =>
      simp only at hs
      subst hs
      injection hw with hw
      subst hw
      have hlen : xs.length = c0 := validate_i64_len rfl hval
      cases hn0
      case false =>
        simp [q_vec_validate, q_vec_storage_matches_type, hlen, hm0 rfl]
      case true =>
        simp [q_vec_validate, q_vec_storage_matches_type, hlen, hm1 rfl]
    case h_2 xs hs =>
      simp only at hs
      subst hs
      injection hw with hw
      subst hw
      have hlen : xs.length = c0 := validate_bool_len rfl hval
      cases hn0
      case false =>
        simp [q_vec_validate, q_vec_storage_matches_type, hlen, hm0 rfl]
      case true =>
        simp [q_vec_validate, q_vec_storage_matches_type, hlen, hm1 rfl]
    case h_3 => exact absurd hw (by simp)
  split at hw
  · -- target i64
    split at hw
    · exact clone_validate _ w hw
    rename_i ht
    split at hw
    case h_1 xs hs =>
      simp only at hs
      subst hs
      injection hw with hw
      subst hw
      have hlen : xs.length = c0 := validate_f64_len rfl hval
      cases hn0
      case false =>
        simp [q_vec_validate, q_vec_storage_matches_type, hlen, hm0 rfl]
      case true =>
        simp [q_vec_validate, q_vec_storage_matches_type, hlen, hm1 rfl]
    case h_2 xs hs =>
      simp only at hs
      subst hs
      injection hw with hw
      subst hw
      have hlen : xs.length = c0 := validate_bool_len rfl hval
      cases hn0
      case false =>
        simp [q_vec_validate, q_vec_storage_matches_type, hlen, hm0 rfl]
      case true =>
        simp [q_vec_validate, q_vec_storage_matches_type, hlen, hm1 rfl]
    case h_3 => exact absurd hw (by simp)
  split at hw
  · -- target bool
    split at hw
    · exact clone_validate _ w hw
    rename_i ht
    split at hw
    case h_1 xs hs =>
      simp only at hs
      subst hs
      injection hw with hw
      subst hw
      have hlen : xs.length = c0 := validate_f64_len rfl hval
      cases hn0
      case false =>
        simp [q_vec_validate, q_vec_storage_matches_type, hlen, hm0 rfl]
      case true =>
        simp [q_vec_validate, q_vec_storage_matches_type, hlen, hm1 rfl]
    case h_2 xs hs =>
      simp only at hs
      subst hs
      injection hw with hw
      subst hw
      have hlen : xs.length = c0 := validate_i64_len rfl hval
      cases hn0
      case false =>
        simp [q_vec_validate, q_vec_storage_matches_type, hlen, hm0 rfl]
      case true =>
        simp [q_vec_validate, q_vec_storage_matches_type, hlen, hm1 rfl]
    case h_3 => exact absurd hw (by simp)
  · exact absurd hw (by simp)


theorem to_vector_validate (x : QValue) : resultValid (q_to_vector x) := by
  intro w hw
  simp only [q_to_vector] at hw
  split at hw
  case h_3 => exact absurd hw (by simp)
  case h_1 v =>
    split at hw
    · exact clone_validate _ w hw
    · exact absurd hw (by simp)
  case h_2 items =>
    split at hw
    case h_4 => exact absurd hw (by simp)
    case h_1 =>
      injection hw with hw
      subst hw
      cases ha : items.any isVNull <;>
        simp [q_vec_validate, q_vec_storage_matches_type, ha, List.isEmpty_iff]
    case h_2 =>
      injection hw with hw
      subst hw
      cases ha : items.any isVNull <;>
        simp [q_vec_validate, q_vec_storage_matches_type, ha, List.isEmpty_iff]
    case h_3 =>
      injection hw with hw
      subst hw
      cases ha : items.any isVNull
      case false =>
        have hv2 := validate_encoded_str (items.map
          (fun it => if isVNull it then [] else string_val_bits it)) false []
          (by simp)
        simpa [ha] using hv2
      case true =>
        have hv2 := validate_encoded_str (items.map
          (fun it => if isVNull it then [] else string_val_bits it)) true
          (items.map (fun it => if isVNull it then 1 else 0)) (by simp)
        simpa [ha] using hv2

theorem binary_impl_validate {a b : QValue} {op : Rat → Rat → Rat} :
    resultValid (q_vec_binary_impl a b op) := by
  intro w hw
  simp only [q_vec_binary_impl] at hw
  repeat' split at hw
  all_goals try (injection hw with hw; rw [← hw])
  all_goals first
    | exact q_vec_validate_mkCmpOut _ _ _ _
    | exact q_vec_validate_mkF64Out _
    | exact q_vec_validate_mkI64Out _
    | exact absurd hw (by simp)

theorem binary_i64_impl_validate {a b : QValue} {op : Int → Int → Int} :
    resultValid (q_vec_binary_i64_impl a b op) := by
  intro w hw
  simp only [q_vec_binary_i64_impl] at hw
  repeat' split at hw
  all_goals try (injection hw with hw; rw [← hw])
  all_goals first
    | exact q_vec_validate_mkCmpOut _ _ _ _
    | exact q_vec_validate_mkF64Out _
    | exact q_vec_validate_mkI64Out _
    | exact absurd hw (by simp)

theorem div_i64_validate {a b : QValue} : resultValid (q_vec_div_i64 a b) := by
  intro w hw
  simp only [q_vec_div_i64] at hw
  repeat' split at hw
  all_goals try (injection hw with hw; rw [← hw])
  all_goals first
    | exact q_vec_validate_mkCmpOut _ _ _ _
    | exact q_vec_validate_mkF64Out _
    | exact q_vec_validate_mkI64Out _
    | exact absurd hw (by simp)

theorem cmp_f64_impl_validate {a b : QValue} {op : Rat → Rat → Bool} :
    resultValid (q_vec_cmp_f64_impl a b op) := by
  intro w hw
  simp only [q_vec_cmp_f64_impl] at hw
  repeat' split at hw
  all_goals try (injection hw with hw; rw [← hw])
  all_goals first
    | exact q_vec_validate_mkCmpOut _ _ _ _
    | exact q_vec_validate_mkF64Out _
    | exact q_vec_validate_mkI64Out _
    | exact absurd hw (by simp)

theorem cmp_i64_impl_validate {a b : QValue} {op : Int → Int → Bool} :
    resultValid (q_vec_cmp_i64_impl a b op) := by
  intro w hw
  simp only [q_vec_cmp_i64_impl] at hw
  repeat' split at hw
  all_goals try (injection hw with hw; rw [← hw])
  all_goals first
    | exact q_vec_validate_mkCmpOut _ _ _ _
    | exact q_vec_validate_mkF64Out _
    | exact q_vec_validate_mkI64Out _
    | exact absurd hw (by simp)

theorem cmp_bool_impl_validate {a b : QValue} {op : Bool → Bool → Bool} :
    resultValid (q_vec_cmp_bool_impl a b op) := by
  intro w hw
  simp only [q_vec_cmp_bool_impl] at hw
  repeat' split at hw
  all_goals try (injection hw with hw; rw [← hw])
  all_goals first
    | exact q_vec_validate_mkCmpOut _ _ _ _
    | exact q_vec_validate_mkF64Out _
    | exact q_vec_validate_mkI64Out _
    | exact absurd hw (by simp)

theorem cmp_str_eq_validate {a b : QValue} {negate : Bool} :
    resultValid (q_vec_cmp_str_eq a b negate) := by
  intro w hw
  simp only [q_vec_cmp_str_eq, strEqVecScalar] at hw
  repeat' split at hw
  all_goals try (injection hw with hw; rw [← hw])
  all_goals first
    | exact q_vec_validate_mkCmpOut _ _ _ _
    | exact q_vec_validate_mkF64Out _
    | exact q_vec_validate_mkI64Out _
    | exact absurd hw (by simp)

theorem arith_dispatch_validate (k : VecArithKind) (a b : QValue) :
    resultValid (vecArithRun k a b) := by
  intro w hw
  cases k <;> simp only [vecArithRun, q_vec_add, q_vec_sub, q_vec_mul,
    q_vec_div] at hw
  all_goals split at hw
  all_goals try exact binary_impl_validate w hw
  all_goals split at hw
  all_goals first
    | exact binary_impl_validate w hw
    | exact binary_i64_impl_validate w hw
    | exact div_i64_validate w hw

theorem cmp_num_dispatch_validate (a b : QValue) (opI : Int → Int → Bool)
    (opF : Rat → Rat → Bool) :
    resultValid (q_vec_cmp_num_dispatch a b opI opF) := by
  intro w hw
  simp only [q_vec_cmp_num_dispatch] at hw
  split at hw
  · split at hw
    · exact cmp_f64_impl_validate w hw
    · exact cmp_i64_impl_validate w hw
  · exact cmp_f64_impl_validate w hw

theorem eq_fallback_validate (a b : QValue) (opF : Rat → Rat → Bool)
    (opB : Bool → Bool → Bool) (negate : Bool) :
    resultValid (q_vec_eq_fallback a b opF opB negate) := by
  intro w hw
  simp only [q_vec_eq_fallback] at hw
  split at hw
  · split at hw
    · exact cmp_str_eq_validate w hw
    · exact cmp_bool_impl_validate w hw
  · exact cmp_f64_impl_validate w hw

theorem cmp_dispatch_validate (k : VecCmpKind) (a b : QValue) :
    resultValid (vecCmpRun k a b) := by
  intro w hw
  cases k
  case lt => exact cmp_num_dispatch_validate a b _ _ w hw
  case lte => exact cmp_num_dispatch_validate a b _ _ w hw
  case gt => exact cmp_num_dispatch_validate a b _ _ w hw
  case gte => exact cmp_num_dispatch_validate a b _ _ w hw
  all_goals (
    simp only [vecCmpRun, q_vec_eq, q_vec_neq, q_vec_eq_dispatch] at hw
    split at hw
    · split at hw
      · exact eq_fallback_validate _ _ _ _ _ w hw
      · exact cmp_i64_impl_validate w hw
    · exact eq_fallback_validate _ _ _ _ _ w hw)

theorem sum_validate (x : QValue) : resultValid (q_vec_sum x) := by
  intro w hw
  simp only [q_vec_sum] at hw
  repeat' split at hw
  all_goals exact absurd hw (by simp)

theorem min_validate (x : QValue) : resultValid (q_vec_min x) := by
  intro w hw
  simp only [q_vec_min] at hw
  repeat' split at hw
  all_goals exact absurd hw (by simp)

theorem max_validate (x : QValue) : resultValid (q_vec_max x) := by
  intro w hw
  simp only [q_vec_max] at hw
  repeat' split at hw
  all_goals exact absurd hw (by simp)

theorem get_scalar_validate (x i : QValue) :
    resultValid (q_vec_get_scalar x i) := by
  intro w hw
  simp only [q_vec_get_scalar] at hw
  repeat' split at hw
  all_goals exact absurd hw (by simp)

theorem mask_filter_validate (x m : QValue) :
    resultValid (q_vec_mask_filter x m) := by
  intro w hw
  simp only [q_vec_mask_filter] at hw
  split at hw
  case h_2 => exact absurd hw (by simp)
  rename_i dv mv
  split at hw
  · exact absurd hw (by simp)
  split at hw
  · exact absurd hw (by simp)
  split at hw
  case h_2 => exact absurd hw (by simp)
  rename_i maskBits hmb
  split at hw
  case h_1 xs hs =>
    injection hw with hw
    subst hw
    cases ha : (((List.range dv.count).filter
        (fun i => !q_vec_is_null_at mv i && maskBits.getD i 0 != 0)).any
        (fun i => q_vec_is_null_at dv i)) <;>
      simp [q_vec_validate, q_vec_storage_matches_type, ha, List.isEmpty_iff]
  case h_2 xs hs =>
    injection hw with hw
    subst hw
    cases ha : (((List.range dv.count).filter
        (fun i => !q_vec_is_null_at mv i && maskBits.getD i 0 != 0)).any
        (fun i => q_vec_is_null_at dv i)) <;>
      simp [q_vec_validate, q_vec_storage_matches_type, ha, List.isEmpty_iff]
  case h_3 xs hs =>
    injection hw with hw
    subst hw
    cases ha : (((List.range dv.count).filter
        (fun i => !q_vec_is_null_at mv i && maskBits.getD i 0 != 0)).any
        (fun i => q_vec_is_null_at dv i)) <;>
      simp [q_vec_validate, q_vec_storage_matches_type, ha, List.isEmpty_iff]
  case h_4 offsets bytes hs =>
    injection hw with hw
    subst hw
    cases ha : (((List.range dv.count).filter
        (fun i => !q_vec_is_null_at mv i && maskBits.getD i 0 != 0)).any
        (fun i => q_vec_is_null_at dv i))
    case false =>
      have hv2 := validate_encoded_str (((List.range dv.count).filter
        (fun i => !q_vec_is_null_at mv i && maskBits.getD i 0 != 0)).map
        (fun i => (q_vec_decode_strings offsets bytes dv.count).getD i []))
        false [] (by simp)
      simpa [ha] using hv2
    case true =>
      have hv2 := validate_encoded_str (((List.range dv.count).filter
        (fun i => !q_vec_is_null_at mv i && maskBits.getD i 0 != 0)).map
        (fun i => (q_vec_decode_strings offsets bytes dv.count).getD i []))
        true (((List.range dv.count).filter
        (fun i => !q_vec_is_null_at mv i && maskBits.getD i 0 != 0)).map
        (fun i => if q_vec_is_null_at dv i then 1 else 0)) (by simp)
      simpa [ha] using hv2


/-- C5: every public vector operation leaves every vector it returns or
mutates in a state satisfying `q_vec_validate`: construction, push (all three
dtypes), set-null, fillna, astype, to_vector, the four arithmetic kernels,
the six comparison kernels, the reductions, scalar indexing and mask
filtering.  Operations whose results are scalars satisfy this vacuously
(they return no vector). -/
theorem claim_C5_validate_preserved :
    (q_vec_validate qv_vector_new = true ∧
     q_vec_validate qv_vector_i64_new = true ∧
     q_vec_validate qv_vector_bool_new = true ∧
     q_vec_validate qv_vector_str_new = true) ∧
    (∀ (v : QVector) (x : QValue), q_vec_validate v = true →
      resultValid (q_vec_push (.VVector v) x) ∧
      resultValid (q_vec_push_i64 (.VVector v) x) ∧
      resultValid (q_vec_push_bool (.VVector v) x)) ∧
    (∀ (v : QVector) (i : Nat) (b : Bool) (w : QVector),
      q_vec_validate v = true →
      q_vec_set_null_at (.VVector v) i b = some w →
      q_vec_validate w = true) ∧
    (∀ x s : QValue, resultValid (q_fillna x s)) ∧
    (∀ x d : QValue, resultValid (q_astype x d)) ∧
    (∀ x : QValue, resultValid (q_to_vector x)) ∧
    (∀ (k : VecArithKind) (a b : QValue), resultValid (vecArithRun k a b)) ∧
    (∀ (k : VecCmpKind) (a b : QValue), resultValid (vecCmpRun k a b)) ∧
    (∀ x : QValue, resultValid (q_vec_sum x) ∧ resultValid (q_vec_min x) ∧
      resultValid (q_vec_max x)) ∧
    (∀ x i : QValue, resultValid (q_vec_get_scalar x i)) ∧
    (∀ x m : QValue, resultValid (q_vec_mask_filter x m)) :=
  ⟨⟨rfl, rfl, rfl, rfl⟩,
    fun _v x hv =>
      ⟨push_validate x hv, push_i64_validate x hv, push_bool_validate x hv⟩,
    fun _v _i _b _w hv hw => set_null_at_validate hv hw,
    fillna_validate, astype_validate, to_vector_validate,
    arith_dispatch_validate, cmp_dispatch_validate,
    fun x => ⟨sum_validate x, min_validate x, max_validate x⟩,
    get_scalar_validate, mask_filter_validate⟩

/-- Witness for C5: pushing `Int 7` onto the smoke-test vector yields a
vector that still validates. -/
theorem claim_C5_validate_preserved_witness :
    q_vec_validate
      (⟨.F64, 6, false, [],
        .f64 [10, 20, 30, 40, 50, ((7 : Int) : Rat)]⟩ : QVector) = true :=
  (claim_C5_validate_preserved.2.1 smokeVec (.VInt 7) (by rfl)).1
    ⟨.F64, 6, false, [], .f64 [10, 20, 30, 40, 50, ((7 : Int) : Rat)]⟩ (by rfl)


/-! ## C4: list/vector round-trip -/

/-- Elements accepted along the F64 scan path: nulls and floats. -/
def okF : QValue → Bool
  | .VNull => true
  | .VFloat _ => true
  | _ => false

/-- Elements accepted along the I64 scan path: nulls and ints. -/
def okI : QValue → Bool
  | .VNull => true
  | .VInt _ => true
  | _ => false

/-- Elements accepted along the STR scan path: nulls and strings. -/
def okS : QValue → Bool
  | .VNull => true
  | .VString _ => true
  | _ => false

theorem getD_map_lt {α β : Type} (f : α → β) (l : List α) (i : Nat)
    (hi : i < l.length) (d : β) (e : α) :
    (l.map f).getD i d = f (l.getD i e) := by
  rw [List.getD_eq_getElem?_getD, List.getElem?_map, List.getElem?_eq_getElem hi,
    List.getD_eq_getElem?_getD, List.getElem?_eq_getElem hi]
  rfl

theorem getD_mem {α : Type} (l : List α) (i : Nat) (hi : i < l.length) (d : α) :
    l.getD i d ∈ l := by
  rw [List.getD_eq_getElem?_getD, List.getElem?_eq_getElem hi]
  exact List.getElem_mem hi

theorem scan_fixed_F (items : List QValue)
    (h : ∀ it ∈ items, okF it = true) :
    items.foldl scanStep .F64M = .F64M := by
  induction items with
  | nil => rfl
  | cons a t ih =>
    have ha := h a (by simp)
    have ht := ih (fun it hit => h it (by simp [hit]))
    cases a <;> simp [okF] at ha <;> simpa [scanStep] using ht

theorem scan_fixed_I (items : List QValue)
    (h : ∀ it ∈ items, okI it = true) :
    items.foldl scanStep .I64M = .I64M := by
  induction items with
  | nil => rfl
  | cons a t ih =>
    have ha := h a (by simp)
    have ht := ih (fun it hit => h it (by simp [hit]))
    cases a <;> simp [okI] at ha <;> simpa [scanStep] using ht

theorem scan_fixed_S (items : List QValue)
    (h : ∀ it ∈ items, okS it = true) :
    items.foldl scanStep .STRM = .STRM := by
  induction items with
  | nil => rfl
  | cons a t ih =>
    have ha := h a (by simp)
    have ht := ih (fun it hit => h it (by simp [hit]))
    cases a <;> simp [okS] at ha <;> simpa [scanStep] using ht

theorem scan_unknown_F (items : List QValue)
    (h : ∀ it ∈ items, okF it = true) :
    items.foldl scanStep .UNKNOWN =
      (if items.all isVNull then .UNKNOWN else .F64M) := by
  induction items with
  | nil => rfl
  | cons a t ih =>
    have ha := h a (by simp)
    have ht := fun it hit => h it (List.mem_cons_of_mem a hit)
    cases a <;> simp [okF] at ha
    · simp [scanStep, isVNull, scan_fixed_F t ht]
    · simpa [scanStep, isVNull] using ih ht

theorem scan_unknown_I (items : List QValue)
    (h : ∀ it ∈ items, okI it = true) :
    items.foldl scanStep .UNKNOWN =
      (if items.all isVNull then .UNKNOWN else .I64M) := by
  induction items with
  | nil => rfl
  | cons a t ih =>
    have ha := h a (by simp)
    have ht := fun it hit => h it (List.mem_cons_of_mem a hit)
    cases a <;> simp [okI] at ha
    · simp [scanStep, isVNull, scan_fixed_I t ht]
    · simpa [scanStep, isVNull] using ih ht

theorem scan_unknown_S (items : List QValue)
    (h : ∀ it ∈ items, okS it = true) :
    items.foldl scanStep .UNKNOWN =
      (if items.all isVNull then .UNKNOWN else .STRM) := by
  induction items with
  | nil => rfl
  | cons a t ih =>
    have ha := h a (by simp)
    have ht := fun it hit => h it (List.mem_cons_of_mem a hit)
    cases a <;> simp [okS] at ha
    · simp [scanStep, isVNull, scan_fixed_S t ht]
    · simpa [scanStep, isVNull] using ih ht


theorem to_vector_list_F (items : List QValue)
    (h : ∀ it ∈ items, okF it = true) (hnn : items.all isVNull = false) :
    q_to_vector (.VList items) = .VVector
      { type := .F64
        count := items.length
        has_nulls := items.any isVNull
        nulls := if items.any isVNull then
                   items.map (fun it => if isVNull it then 1 else 0)
                 else []
        storage := .f64 (items.map
          (fun it => if isVNull it then 0 else float_val_bits it)) } := by
  have hscan : scanMode items = ScanMode.F64M := by
    simp [scanMode, scan_unknown_F items h, hnn]
  simp [q_to_vector, hscan]

theorem to_vector_list_I (items : List QValue)
    (h : ∀ it ∈ items, okI it = true) :
    q_to_vector (.VList items) = .VVector
      { type := .I64
        count := items.length
        has_nulls := items.any isVNull
        nulls := if items.any isVNull then
                   items.map (fun it => if isVNull it then 1 else 0)
                 else []
        storage := .i64 (items.map
          (fun it => if isVNull it then 0 else int_val_bits it)) } := by
  cases hnn : items.all isVNull with
  | false =>
    have hscan : scanMode items = ScanMode.I64M := by
      simp [scanMode, scan_unknown_I items h, hnn]
    simp [q_to_vector, hscan]
  | true =>
    have hscan : scanMode items = ScanMode.UNKNOWN := by
      simp [scanMode, scan_unknown_I items h, hnn]
    simp [q_to_vector, hscan]

theorem to_vector_list_S (items : List QValue)
    (h : ∀ it ∈ items, okS it = true) (hnn : items.all isVNull = false) :
    q_to_vector (.VList items) = .VVector
      { type := .STR
        count := items.length
        has_nulls := items.any isVNull
        nulls := if items.any isVNull then
                   items.map (fun it => if isVNull it then 1 else 0)
                 else []
        storage := .str
          (q_vec_encode_strings (items.map
            (fun it => if isVNull it then [] else string_val_bits it))).1
          (q_vec_encode_strings (items.map
            (fun it => if isVNull it then [] else string_val_bits it))).2 } := by
  have hscan : scanMode items = ScanMode.STRM := by
    simp [scanMode, scan_unknown_S items h, hnn]
  simp [q_to_vector, hscan]


theorem elem_mk_F (items : List QValue)
    (h : ∀ it ∈ items, okF it = true) (i : Nat) (hi : i < items.length) :
    q_vec_elem
      { type := .F64
        count := items.length
        has_nulls := items.any isVNull
        nulls := if items.any isVNull then
                   items.map (fun it => if isVNull it then 1 else 0)
                 else []
        storage := .f64 (items.map
          (fun it => if isVNull it then 0 else float_val_bits it)) } i
      = items.getD i .VNull := by
  have hgD : items.getD i QValue.VNull = items[i] := by
    rw [List.getD_eq_getElem?_getD, List.getElem?_eq_getElem hi]
    rfl
  have hok := h _ (getD_mem items i hi .VNull)
  rw [hgD] at hok
  rw [hgD]
  cases hval : items[i] with
  | VNull =>
    have hany : items.any isVNull = true :=
      List.any_eq_true.2 ⟨items[i], List.getElem_mem hi, by rw [hval]; rfl⟩
    simp [q_vec_elem, hany, hval, isVNull, List.getElem?_eq_getElem hi, hi]
  | VFloat x =>
    cases hany : items.any isVNull with
    | false =>
      simp [q_vec_elem, hany, hval, isVNull, float_val_bits,
        List.getElem?_eq_getElem hi, hi]
    | true =>
      simp [q_vec_elem, hany, hval, isVNull, float_val_bits,
        List.getElem?_eq_getElem hi, hi]
  | VInt x => rw [hval] at hok; simp [okF] at hok
  | VBool b => rw [hval] at hok; simp [okF] at hok
  | VString t => rw [hval] at hok; simp [okF] at hok
  | VList xs => rw [hval] at hok; simp [okF] at hok
  | VVector w => rw [hval] at hok; simp [okF] at hok
  | VDict => rw [hval] at hok; simp [okF] at hok
  | VFunc => rw [hval] at hok; simp [okF] at hok
  | VResult => rw [hval] at hok; simp [okF] at hok

theorem elem_mk_I (items : List QValue)
    (h : ∀ it ∈ items, okI it = true) (i : Nat) (hi : i < items.length) :
    q_vec_elem
      { type := .I64
        count := items.length
        has_nulls := items.any isVNull
        nulls := if items.any isVNull then
                   items.map (fun it => if isVNull it then 1 else 0)
                 else []
        storage := .i64 (items.map
          (fun it => if isVNull it then 0 else int_val_bits it)) } i
      = items.getD i .VNull := by
  have hgD : items.getD i QValue.VNull = items[i] := by
    rw [List.getD_eq_getElem?_getD, List.getElem?_eq_getElem hi]
    rfl
  have hok := h _ (getD_mem items i hi .VNull)
  rw [hgD] at hok
  rw [hgD]
  cases hval : items[i] with
  | VNull =>
    have hany : items.any isVNull = true :=
      List.any_eq_true.2 ⟨items[i], List.getElem_mem hi, by rw [hval]; rfl⟩
    simp [q_vec_elem, hany, hval, isVNull, List.getElem?_eq_getElem hi, hi]
  | VInt x =>
    cases hany : items.any isVNull with
    | false =>
      simp [q_vec_elem, hany, hval, isVNull, int_val_bits,
        List.getElem?_eq_getElem hi, hi]
    | true =>
      simp [q_vec_elem, hany, hval, isVNull, int_val_bits,
        List.getElem?_eq_getElem hi, hi]
  | VFloat x => rw [hval] at hok; simp [okI] at hok
  | VBool b => rw [hval] at hok; simp [okI] at hok
  | VString t => rw [hval] at hok; simp [okI] at hok
  | VList xs => rw [hval] at hok; simp [okI] at hok
  | VVector w => rw [hval] at hok; simp [okI] at hok
  | VDict => rw [hval] at hok; simp [okI] at hok
  | VFunc => rw [hval] at hok; simp [okI] at hok
  | VResult => rw [hval] at hok; simp [okI] at hok

theorem elem_mk_S (items : List QValue)
    (h : ∀ it ∈ items, okS it = true) (i : Nat) (hi : i < items.length) :
    q_vec_elem
      { type := .STR
        count := items.length
        has_nulls := items.any isVNull
        nulls := if items.any isVNull then
                   items.map (fun it => if isVNull it then 1 else 0)
                 else []
        storage := .str
          (q_vec_encode_strings (items.map
            (fun it => if isVNull it then [] else string_val_bits it))).1
          (q_vec_encode_strings (items.map
            (fun it => if isVNull it then [] else string_val_bits it))).2 } i
      = items.getD i .VNull := by
  have hgD : items.getD i QValue.VNull = items[i] := by
    rw [List.getD_eq_getElem?_getD, List.getElem?_eq_getElem hi]
    rfl
  have hok := h _ (getD_mem items i hi .VNull)
  rw [hgD] at hok
  rw [hgD]
  have hdec := decode_encode_elem
    (items.map (fun it => if isVNull it then [] else string_val_bits it)) i
    (by simpa using hi)
  simp only [List.getD_eq_getElem?_getD] at hdec
  cases hval : items[i] with
  | VNull =>
    have hany : items.any isVNull = true :=
      List.any_eq_true.2 ⟨items[i], List.getElem_mem hi, by rw [hval]; rfl⟩
    simp [q_vec_elem, hany, hval, isVNull, List.getElem?_eq_getElem hi, hi]
  | VString t =>
    have hnulV : isVNull (QValue.VString t) = false := rfl
    have hsvb : string_val_bits (QValue.VString t) = t := rfl
    cases hany : items.any isVNull with
    | false =>
      simp [q_vec_elem, hany, hval, hnulV, hsvb, hdec,
        List.getElem?_eq_getElem hi, hi]
    | true =>
      simp [q_vec_elem, hany, hval, hnulV, hsvb, hdec,
        List.getElem?_eq_getElem hi, hi]
  | VInt x => rw [hval] at hok; simp [okS] at hok
  | VFloat x => rw [hval] at hok; simp [okS] at hok
  | VBool b => rw [hval] at hok; simp [okS] at hok
  | VList xs => rw [hval] at hok; simp [okS] at hok
  | VVector w => rw [hval] at hok; simp [okS] at hok
  | VDict => rw [hval] at hok; simp [okS] at hok
  | VFunc => rw [hval] at hok; simp [okS] at hok
  | VResult => rw [hval] at hok; simp [okS] at hok

/-- A valid empty F64 vector: the round trip turns it into an I64 vector. -/
def c4EmptyF64 : QVector := ⟨.F64, 0, false, [], .f64 []⟩

/-- A valid three-element F64 vector with a null in the middle. -/
def c4Vec : QVector := ⟨.F64, 3, true, [0, 1, 0], .f64 [10, 0, 20]⟩

/-- C4 counterexample: the round-trip law fails on the valid empty F64
vector.  `q_to_list` yields the empty list, whose element-type scan stays
UNKNOWN, and `q_to_vector` defaults UNKNOWN to I64 -- the dtype is not
preserved. -/
theorem claim_C4_counterexample :
    q_vec_validate c4EmptyF64 = true ∧ c4EmptyF64.type = QVecType.F64 ∧
    q_to_vector (q_to_list (.VVector c4EmptyF64))
      = .VVector (⟨.I64, 0, false, [], .i64 []⟩ : QVector) ∧
    QVecType.I64 ≠ QVecType.F64 :=
  ⟨rfl, rfl, rfl, by decide⟩

/-- C4 (amended): for a valid vector of dtype F64, I64 or STR with at least
one non-null element, `q_to_vector (q_to_list v)` yields a valid vector of
the same dtype and count whose elements (read back by the `q_to_list`
per-element decode, nulls included) all agree with the original.  (Without a
non-null element the scan stays UNKNOWN and defaults the dtype to I64, so
empty and all-null F64/STR vectors do not round-trip -- see the
counterexample.) -/
theorem claim_C4_amended (v : QVector) (hv : q_vec_validate v = true)
    (ht : v.type = .F64 ∨ v.type = .I64 ∨ v.type = .STR)
    (hnn : ∃ i, i < v.count ∧ isVNull (q_vec_elem v i) = false) :
    ∃ w : QVector, q_to_vector (q_to_list (.VVector v)) = .VVector w ∧
      w.type = v.type ∧ w.count = v.count ∧ q_vec_validate w = true ∧
      ∀ i, i < v.count → q_vec_elem w i = q_vec_elem v i := by
  obtain ⟨t, c, hn, nl, st⟩ := v
  obtain ⟨j, hj, hjn⟩ := hnn
  cases t with
  | F64 =>
    cases st with
    | f64 xs =>
      have hok : ∀ it ∈ (List.range c).map
          (q_vec_elem ⟨.F64, c, hn, nl, .f64 xs⟩), okF it = true := by
        intro it hit
        obtain ⟨k, hk, rfl⟩ := List.mem_map.1 hit
        simp only [q_vec_elem]
        split
        · rfl
        · rfl
      have hget : ∀ i, i < c →
          ((List.range c).map (q_vec_elem ⟨.F64, c, hn, nl, .f64 xs⟩)).getD i .VNull
            = q_vec_elem ⟨.F64, c, hn, nl, .f64 xs⟩ i := by
        intro i hi
        rw [getD_range_map]
        simp [hi]
      have hall : ((List.range c).map
          (q_vec_elem ⟨.F64, c, hn, nl, .f64 xs⟩)).all isVNull = false := by
        cases hA : ((List.range c).map
            (q_vec_elem ⟨.F64, c, hn, nl, .f64 xs⟩)).all isVNull with
        | false => rfl
        | true =>
          exfalso
          have hmem := getD_mem ((List.range c).map
            (q_vec_elem ⟨.F64, c, hn, nl, .f64 xs⟩)) j (by simpa using hj)
            QValue.VNull
          have h2 := List.all_eq_true.1 hA _ hmem
          rw [hget j hj] at h2
          simp [h2] at hjn
      have hw := to_vector_list_F _ hok hall
      refine ⟨_, hw, rfl, by simp, to_vector_validate _ _ hw, ?_⟩
      intro i hi
      rw [← hget i hi]
      exact elem_mk_F _ hok i (by simpa using hi)
    | i64 xs => simp [q_vec_validate, q_vec_storage_matches_type] at hv
    | boolv xs => simp [q_vec_validate, q_vec_storage_matches_type] at hv
    | str o b => simp [q_vec_validate, q_vec_storage_matches_type] at hv
  | I64 =>
    cases st with
    | i64 xs =>
      have hok : ∀ it ∈ (List.range c).map
          (q_vec_elem ⟨.I64, c, hn, nl, .i64 xs⟩), okI it = true := by
        intro it hit
        obtain ⟨k, hk, rfl⟩ := List.mem_map.1 hit
        simp only [q_vec_elem]
        split
        · rfl
        · rfl
      have hget : ∀ i, i < c →
          ((List.range c).map (q_vec_elem ⟨.I64, c, hn, nl, .i64 xs⟩)).getD i .VNull
            = q_vec_elem ⟨.I64, c, hn, nl, .i64 xs⟩ i := by
        intro i hi
        rw [getD_range_map]
        simp [hi]
      have hw := to_vector_list_I
        ((List.range c).map (q_vec_elem ⟨.I64, c, hn, nl, .i64 xs⟩)) hok
      refine ⟨_, hw, rfl, by simp, to_vector_validate _ _ hw, ?_⟩
      intro i hi
      rw [← hget i hi]
      exact elem_mk_I _ hok i (by simpa using hi)
    | f64 xs => simp [q_vec_validate, q_vec_storage_matches_type] at hv
    | boolv xs => simp [q_vec_validate, q_vec_storage_matches_type] at hv
    | str o b => simp [q_vec_validate, q_vec_storage_matches_type] at hv
  | BOOL =>
    rcases ht with ht | ht | ht <;> simp at ht
  | STR =>
    cases st with
    | str o b =>
      have hok : ∀ it ∈ (List.range c).map
          (q_vec_elem ⟨.STR, c, hn, nl, .str o b⟩), okS it = true := by
        intro it hit
        obtain ⟨k, hk, rfl⟩ := List.mem_map.1 hit
        simp only [q_vec_elem]
        split
        · rfl
        · rfl
      have hget : ∀ i, i < c →
          ((List.range c).map (q_vec_elem ⟨.STR, c, hn, nl, .str o b⟩)).getD i .VNull
            = q_vec_elem ⟨.STR, c, hn, nl, .str o b⟩ i := by
        intro i hi
        rw [getD_range_map]
        simp [hi]
      have hall : ((List.range c).map
          (q_vec_elem ⟨.STR, c, hn, nl, .str o b⟩)).all isVNull = false := by
        cases hA : ((List.range c).map
            (q_vec_elem ⟨.STR, c, hn, nl, .str o b⟩)).all isVNull with
        | false => rfl
        | true =>
          exfalso
          have hmem := getD_mem ((List.range c).map
            (q_vec_elem ⟨.STR, c, hn, nl, .str o b⟩)) j (by simpa using hj)
            QValue.VNull
          have h2 := List.all_eq_true.1 hA _ hmem
          rw [hget j hj] at h2
          simp [h2] at hjn
      have hw := to_vector_list_S _ hok hall
      refine ⟨_, hw, rfl, by simp, to_vector_validate _ _ hw, ?_⟩
      intro i hi
      rw [← hget i hi]
      exact elem_mk_S _ hok i (by simpa using hi)
    | f64 xs => simp [q_vec_validate, q_vec_storage_matches_type] at hv
    | i64 xs => simp [q_vec_validate, q_vec_storage_matches_type] at hv
    | boolv xs => simp [q_vec_validate, q_vec_storage_matches_type] at hv

/-- Witness for C4 (amended) at a three-element F64 vector with a middle
null. -/
theorem claim_C4_amended_witness :
    ∃ w : QVector, q_to_vector (q_to_list (.VVector c4Vec)) = .VVector w ∧
      w.type = c4Vec.type ∧ w.count = c4Vec.count ∧ q_vec_validate w = true ∧
      ∀ i, i < c4Vec.count → q_vec_elem w i = q_vec_elem c4Vec i :=
  claim_C4_amended c4Vec (by rfl) (Or.inl rfl) ⟨0, by decide, by rfl⟩

end Quark
